import Mathlib

/-!
A verification development for the product-safety scoring backend
(`src/main.py`).  The Python source is shallowly embedded: Python strings
are modelled as `List Char` (ASCII range), Python `int` as `ℤ`, Python
float arithmetic as exact rational arithmetic over `ℚ`, Python dicts used
as records become Lean structures, the in-memory job dictionary becomes an
association list, and fallible database access is modelled by an explicit
environment recording the outcome of each store operation (`Except`).
Definitions keep the source names wherever Lean's syntax allows.
-/

set_option maxRecDepth 10000

/-! ## Job state machine (`src/main.py`, V4 PHASE 3)

`class JobStatus(str, Enum)` and `class DeepResearchJob(BaseModel)`:
a job record with string status, integer progress, and optional
step/result/error/timestamps.  The job store `DEEP_RESEARCH_JOBS` is a
dict from job id to record; we model it as an association list where
`save_job` conses and `get_job` takes the first binding (Python dict
assignment overwrites; lookup-first gives the same observable map). -/

namespace JobStatus

def pending : String := "pending"

def processing : String := "processing"

def completed : String := "completed"

def failed : String := "failed"

end JobStatus

/-- The `DeepResearchJob` pydantic model: `job_id`, `status` (a `JobStatus`
string value), `progress` (int), `current_step`, `result` (optional payload,
modelled opaquely by a type parameter `ρ`), `error`, `created_at`,
`completed_at`. -/
structure Job (ρ : Type) where
  job_id : String
  status : String
  progress : Int
  current_step : Option String
  result : Option ρ
  error : Option String
  created_at : String
  completed_at : Option String
deriving DecidableEq, Repr

/-- The in-memory job store `DEEP_RESEARCH_JOBS`. -/
def JobStore (ρ : Type) : Type := List (String × Job ρ)

/-- `DEEP_RESEARCH_JOBS = {}` -/
def emptyStore (ρ : Type) : JobStore ρ := []

/-- `save_job(job_id, job_data)`: overwrite the binding for `job_id`. -/
def save_job (s : JobStore ρ) (job_id : String) (j : Job ρ) : JobStore ρ :=
  (job_id, j) :: s

/-- `get_job(job_id)`: first (= most recent) binding wins. -/
def get_job (s : JobStore ρ) (job_id : String) : Option (Job ρ) :=
  match s with
  | [] => none
  | (k, j) :: rest => if k = job_id then some j else get_job rest job_id

/-- The field mutation performed by `update_job_progress` on the fetched
record: `job_data["progress"] = progress; job_data["current_step"] = current_step`. -/
def applyUpdate (j : Job ρ) (progress : Int) (current_step : String) : Job ρ :=
  { j with progress := progress, current_step := some current_step }

/-- The field mutation performed by `complete_job`: sets status `completed`,
progress 100, step `"Complete"`, the result payload and `completed_at`. -/
def applyComplete (j : Job ρ) (result : ρ) (now : String) : Job ρ :=
  { j with status := JobStatus.completed, progress := 100,
           current_step := some "Complete", result := some result,
           completed_at := some now }

/-- The field mutation performed by `fail_job`: sets status `failed`, the
error message and `completed_at`; every other field is kept. -/
def applyFail (j : Job ρ) (error : String) (now : String) : Job ρ :=
  { j with status := JobStatus.failed, error := some error,
           completed_at := some now }

/-- `update_job_progress(job_id, progress, current_step)`: fetch, mutate
progress/step, save.  There is no status guard in the source. -/
def update_job_progress (s : JobStore ρ) (job_id : String) (progress : Int)
    (current_step : String) : JobStore ρ :=
  match get_job s job_id with
  | none => s
  | some j => save_job s job_id (applyUpdate j progress current_step)

/-- `complete_job(job_id, result)`; `now` stands for
`datetime.utcnow().isoformat()`. -/
def complete_job (s : JobStore ρ) (job_id : String) (result : ρ)
    (now : String) : JobStore ρ :=
  match get_job s job_id with
  | none => s
  | some j => save_job s job_id (applyComplete j result now)

/-- `fail_job(job_id, error)`. -/
def fail_job (s : JobStore ρ) (job_id : String) (error : String)
    (now : String) : JobStore ρ :=
  match get_job s job_id with
  | none => s
  | some j => save_job s job_id (applyFail j error now)

/-- The PENDING record persisted by `start_deep_research` on a cache miss
(`status: pending, progress: 0, current_step: "Initializing deep research...",
result: None, error: None, completed_at: None`). -/
def initialJob (ρ : Type) (job_id : String) (created_at : String) : Job ρ :=
  { job_id := job_id, status := JobStatus.pending, progress := 0,
    current_step := some "Initializing deep research...",
    result := none, error := none,
    created_at := created_at, completed_at := none }

/-- The synthetic already-completed job fabricated by `start_deep_research`
on a deep-research cache hit (`job_id = "cached_" + cache_key`,
status completed, progress 100, result the cached payload, both timestamps
the cached `generated_at`). -/
def cachedJob (ρ : Type) (cache_key : String) (result : ρ)
    (generated_at : String) : Job ρ :=
  { job_id := "cached_" ++ cache_key, status := JobStatus.completed,
    progress := 100, current_step := some "Report ready (cached)",
    result := some result, error := none,
    created_at := generated_at, completed_at := some generated_at }

/-- The `(progress, current_step)` update sequence emitted by the worker
`process_deep_research` on its success path, in source order. -/
def deepResearchUpdates : List (Int × String) :=
  [ (10, "Preparing comprehensive analysis...")
  , (20, "Analyzing ingredients database...")
  , (30, "Researching corporate ownership...")
  , (50, "Investigating supply chain...")
  , (70, "Checking regulatory history...")
  , (85, "Finding better alternatives...")
  , (95, "Generating recommendations...") ]

/-- Replay the first `k` progress updates of `process_deep_research`
against the store. -/
def runWorkerUpdates (s : JobStore ρ) (job_id : String) (k : Nat) : JobStore ρ :=
  (deepResearchUpdates.take k).foldl
    (fun st u => update_job_progress st job_id u.1 u.2) s

/-- Job states reachable from job creation by the job-manager operations,
exactly as the claim states them: creation (`start_deep_research`, either
the fresh PENDING record or the synthetic cached one) followed by any
sequence of `update_job_progress`, `complete_job`, `fail_job` applied to
this job's record. -/
inductive JReach (ρ : Type) : Job ρ → Prop
  | fresh (job_id created_at : String) : JReach ρ (initialJob ρ job_id created_at)
  | cached (cache_key generated_at : String) (res : ρ) :
      JReach ρ (cachedJob ρ cache_key res generated_at)
  | update {j} (progress : Int) (current_step : String) :
      JReach ρ j → JReach ρ (applyUpdate j progress current_step)
  | complete {j} (result : ρ) (now : String) :
      JReach ρ j → JReach ρ (applyComplete j result now)
  | fail {j} (error now : String) :
      JReach ρ j → JReach ρ (applyFail j error now)

/-- Job states reachable when the terminal operations are only ever applied
to a job that is not yet terminal (the "terminal states are write-once"
discipline; it is what the single-writer worker does on every run in which
at most one of `complete_job` / `fail_job` fires). -/
inductive JReachGuarded (ρ : Type) : Job ρ → Prop
  | fresh (job_id created_at : String) :
      JReachGuarded ρ (initialJob ρ job_id created_at)
  | cached (cache_key generated_at : String) (res : ρ) :
      JReachGuarded ρ (cachedJob ρ cache_key res generated_at)
  | update {j} (progress : Int) (current_step : String) :
      JReachGuarded ρ j → JReachGuarded ρ (applyUpdate j progress current_step)
  | complete {j} (result : ρ) (now : String) :
      JReachGuarded ρ j →
      j.status ≠ JobStatus.completed → j.status ≠ JobStatus.failed →
      JReachGuarded ρ (applyComplete j result now)
  | fail {j} (error now : String) :
      JReachGuarded ρ j →
      j.status ≠ JobStatus.completed → j.status ≠ JobStatus.failed →
      JReachGuarded ρ (applyFail j error now)

/-- The result/error–status invariant of the spec data model:
`result` is set iff the job is COMPLETED and `error` is set iff FAILED. -/
def InvJob (j : Job ρ) : Prop :=
  (j.result ≠ none ↔ j.status = JobStatus.completed) ∧
  (j.error ≠ none ↔ j.status = JobStatus.failed)

instance (j : Job ρ) [DecidableEq ρ] : Decidable (InvJob j) := by
  unfold InvJob; infer_instance

/-! ## Flat scoring path: positive-claim bonuses (`apply_positive_bonuses`)

A positive attribute is a dict whose bonus is `attr.get('bonus_points', 3)`:
modelled as `Option Int`, absent key = `none`. -/

/-- `attr.get('bonus_points', 3)` -/
def bonusPoints (attr : Option Int) : Int := attr.getD 3

/-- `apply_positive_bonuses(score, positive_attributes)`: empty list returns
the score unchanged; otherwise the summed bonuses are capped at +15 and the
adjusted score is clamped to [0, 100]. -/
def apply_positive_bonuses (score : Int) (positive_attributes : List (Option Int)) :
    Int :=
  if positive_attributes = [] then score
  else
    max 0 (min 100 (score + min ((positive_attributes.map bonusPoints).sum) 15))

/-! ## Best-effort cache layer (`get_cached_deep_research`,
`save_deep_research_to_cache`, `get_cached_pdf_bytes`, `get_product_analysis`)

Database access through `db_pool` is modelled by an environment: `db_pool`
present or not, and for each store operation an `Except` describing whether
the awaited call returns rows or raises.  JSON payloads are modelled as
opaque strings. -/

/-- A row of the `cached_deep_research` table as selected by
`get_cached_deep_research`. -/
structure ResearchRow where
  report : String
  full_report : String
  product_name : String
  brand : String
  category : String
  created_at : String
deriving DecidableEq, Repr

/-- The dict built from a cache hit (`json.loads(report)` is modelled as the
stored JSON string itself; `cached: True` is the extra flag). -/
structure ResearchPayload where
  product_name : String
  brand : String
  category : String
  report : String
  full_report : String
  generated_at : String
  cached : Bool
deriving DecidableEq, Repr

/-- A row of the `cached_products` table passing the 7-day freshness filter
(the SQL `WHERE ... updated_at > NOW() - INTERVAL '7 days'` already filters,
so a returned row is fresh by construction). -/
structure ProductsRow where
  data : String
deriving DecidableEq, Repr

/-- Outcomes of the backing store during one request: is `db_pool` set, and
what each awaited store call would do (`.ok` rows / `.error` raised).
`research_result` is the value computed by the external
`research_product` collaborator on the uncached path. -/
structure CacheEnv where
  db_pool : Bool
  research_fetch : Except String (Option ResearchRow)
  pdf_fetch : Except String (Option (List UInt8))
  products_fetch : Except String (Option ProductsRow)
  research_save : Except String Unit
  products_save : Except String Unit
  research_result : String

/-- Did the modelled store call raise? -/
def Except.failed : Except String α → Bool
  | .error _ => true
  | .ok _ => false

/-- `get_cached_deep_research(cache_key)`: `None` without a pool; the row
mapped to the payload dict on success; `None` when the awaited call raises
(the `except` clause only logs). -/
def get_cached_deep_research (env : CacheEnv) (cache_key : String) :
    Option ResearchPayload :=
  if env.db_pool then
    match env.research_fetch with
    | .ok (some row) =>
        some { product_name := row.product_name, brand := row.brand,
               category := row.category, report := row.report,
               full_report := row.full_report, generated_at := row.created_at,
               cached := true }
    | .ok none => none
    | .error _ => none
  else none

/-- `save_deep_research_to_cache(...)`: `False` without a pool, `True` after
the upsert, `False` when the awaited call raises. -/
def save_deep_research_to_cache (env : CacheEnv) (cache_key product_name : String)
    (brand category report full_report : String) : Bool :=
  if env.db_pool then
    match env.research_save with
    | .ok _ => true
    | .error _ => false
  else false

/-- `get_cached_pdf_bytes(cache_key)`: `None` without a pool; the stored
bytes when a row with non-null, non-empty (`if result and result["pdf_bytes"]`)
bytes exists; `None` otherwise or when the call raises. -/
def get_cached_pdf_bytes (env : CacheEnv) (cache_key : String) :
    Option (List UInt8) :=
  if env.db_pool then
    match env.pdf_fetch with
    | .ok (some bytes) => if bytes ≠ [] then some bytes else none
    | .ok none => none
    | .error _ => none
  else none

/-- `get_product_analysis(...)`: probe the `cached_products` cache (guarded
by `if db_pool` and a `try`/`except` that degrades to a miss), on a hit
return the cached JSON, on a miss run `research_product` and best-effort
save (the save outcome never changes the returned value). -/
def get_product_analysis (env : CacheEnv) (product_name brand category : String)
    (visible_ingredients : List String) : String :=
  let probe : Option String :=
    if env.db_pool then
      match env.products_fetch with
      | .ok (some row) => some row.data
      | .ok none => none
      | .error _ => none
    else none
  match probe with
  | some data => data
  | none => env.research_result

/-! ## V4 tiered scoring engine (`calculate_v4_score`)

Strings are `List Char`; ingredient/brand matching is Python substring
containment on lower-cased text.  Float arithmetic is modelled exactly over
`ℚ`; `round` is Python's banker's rounding (half to even).  The narrative
outputs of `calculate_v4_score` (the `alerts`, `hidden_truths` and
`corporate_disclosure` texts) are not modelled; the per-ingredient
`hidden_truth` lookup key is kept, and every score-relevant quantity
(dimension scores, graded list, caps, overall score, grade, parent company)
is embedded in full. -/

/-- Python `str.lower` on the ASCII range (every non-ASCII character
appearing in the embedded tables is already lower case). -/
def pyLower (c : Char) : Char :=
  if 'A' ≤ c ∧ c ≤ 'Z' then Char.ofNat (c.toNat + 32) else c

/-- Lower-case a modelled Python string. -/
def lowerStr (s : List Char) : List Char := s.map pyLower

/-- Python substring containment `needle in hay`. -/
def isSubstr (needle hay : List Char) : Bool :=
  hay.tails.any (fun t => needle.isPrefixOf t)

/-- A value of the tier tables: grade letter, reason text, optional
narrative key (`data.get("hidden_truth")`) and optional bonus flag. -/
structure TableEntry where
  grade : String
  reason : String
  hidden_truth : Option String := none
  bonus : Bool := false
deriving DecidableEq, Repr

/-- A value of `CORPORATE_PENALTIES`: signed penalty, owned brands, notable
brands and issue texts. -/
structure CorpEntry where
  penalty : Int
  brands : List (List Char)
  notable_brands : List String
  issues : List String
deriving DecidableEq, Repr

/-- `TIER_1_AVOID` (tier F, red); keys are matched by substring against the lower-cased ingredient. -/
def TIER_1_AVOID : List (List Char × TableEntry) :=
  [ ("processed meat".data, { grade := "F", reason := "IARC Group 1 carcinogen (same category as tobacco)", hidden_truth := some "ractopamine" }),
    ("sodium nitrite".data, { grade := "F", reason := "Forms carcinogenic nitrosamines, linked to colorectal cancer" }),
    ("sodium nitrate".data, { grade := "F", reason := "Converts to nitrite, carcinogenic in processed meats" }),
    ("ractopamine".data, { grade := "F", reason := "BANNED in 168 countries including EU, China, Russia. Still in 60-80% of US pork.", hidden_truth := some "ractopamine" }),
    ("potassium bromate".data, { grade := "F", reason := "IARC Group 2B carcinogen. BANNED in EU, Canada, China, Japan, Brazil. Still in US bread.", hidden_truth := some "potassium bromate" }),
    ("brominated vegetable oil".data, { grade := "F", reason := "BANNED in EU, Japan, India. Builds up in body tissue. FDA finally banned 2024.", hidden_truth := some "brominated_vegetable_oil" }),
    ("azodicarbonamide".data, { grade := "F", reason := "BANNED in EU, Australia. Breaks down to carcinogenic semicarbazide. Used in US bread.", hidden_truth := some "azodicarbonamide" }),
    ("red 3".data, { grade := "F", reason := "FDA acknowledged carcinogen in 1990. BANNED in cosmetics. Still allowed in food.", hidden_truth := some "red_3" }),
    ("bha".data, { grade := "F", reason := "IARC Group 2B carcinogen. BANNED in EU for infant food. Endocrine disruptor.", hidden_truth := some "BHA" }),
    ("butylated hydroxyanisole".data, { grade := "F", reason := "IARC Group 2B carcinogen. BANNED in EU for infant food.", hidden_truth := some "BHA" }),
    ("bht".data, { grade := "F", reason := "Potential carcinogen. Banned in UK, Japan, Romania. Linked to behavioral issues in children.", hidden_truth := some "BHT" }),
    ("butylated hydroxytoluene".data, { grade := "F", reason := "Potential carcinogen. Banned in UK, Japan, Romania.", hidden_truth := some "BHT" }),
    ("partially hydrogenated".data, { grade := "F", reason := "Artificial trans fat. No safe level. FDA banned 2018 but loopholes remain.", hidden_truth := some "partially_hydrogenated" }) ]

/-- `TIER_2_LIMIT` (tier D, orange); keys are matched by substring against the lower-cased ingredient. -/
def TIER_2_LIMIT : List (List Char × TableEntry) :=
  [ ("aspartame".data, { grade := "D", reason := "IARC classified as 'possibly carcinogenic' July 2023" }),
    ("red 40".data, { grade := "D", reason := "Requires warning label in EU. Linked to hyperactivity in children." }),
    ("allura red".data, { grade := "D", reason := "Same as Red 40. Requires warning label in EU." }),
    ("yellow 5".data, { grade := "D", reason := "Requires warning label in EU. Contains benzidine (carcinogen)." }),
    ("tartrazine".data, { grade := "D", reason := "Same as Yellow 5. Requires warning label in EU." }),
    ("yellow 6".data, { grade := "D", reason := "Requires warning label in EU. Linked to adrenal tumors." }),
    ("sunset yellow".data, { grade := "D", reason := "Same as Yellow 6. Requires warning label in EU." }),
    ("caramel color".data, { grade := "D", reason := "Class IV caramel contains 4-MEI, linked to cancer in animal studies." }),
    ("titanium dioxide".data, { grade := "D", reason := "BANNED in EU food since 2022. Still allowed in US. DNA damage concerns." }),
    ("propylparaben".data, { grade := "D", reason := "Endocrine disruptor. BANNED in EU food. Still in US products." }),
    ("high fructose corn syrup".data, { grade := "D", reason := "Ultra-processed marker. Linked to obesity, diabetes, fatty liver." }),
    ("hfcs".data, { grade := "D", reason := "Ultra-processed marker. Linked to obesity, diabetes, fatty liver." }),
    ("maltodextrin".data, { grade := "D", reason := "High glycemic (105-136). Spikes blood sugar faster than table sugar." }),
    ("dextrose".data, { grade := "D", reason := "Industrial corn sugar. Glycemic index of 100." }),
    ("carrageenan".data, { grade := "D", reason := "Inflammatory. May cause gastrointestinal issues. Some countries restrict." }),
    ("sodium benzoate".data, { grade := "D", reason := "Can form benzene (carcinogen) when combined with vitamin C." }),
    ("polysorbate 80".data, { grade := "D", reason := "Emulsifier linked to gut microbiome disruption and inflammation." }),
    ("tbhq".data, { grade := "D", reason := "Petroleum-based preservative. Possible carcinogen. Banned in Japan and some EU countries." }),
    ("tertiary butylhydroquinone".data, { grade := "D", reason := "Petroleum-based preservative. Vision problems, DNA damage in studies." }) ]

/-- `TIER_3_CAUTION` (tier C, yellow); keys are matched by substring against the lower-cased ingredient. -/
def TIER_3_CAUTION : List (List Char × TableEntry) :=
  [ ("palm oil".data, { grade := "C", reason := "High saturated fat. Major deforestation driver. Often from unethical sources." }),
    ("soybean oil".data, { grade := "C", reason := "Usually from GMO industrial farms. High omega-6 (inflammatory)." }),
    ("corn syrup".data, { grade := "C", reason := "Refined sugar from industrial corn. Empty calories." }),
    ("modified food starch".data, { grade := "C", reason := "Ultra-processed. Often from GMO corn. May contain processing chemicals." }),
    ("modified starch".data, { grade := "C", reason := "Ultra-processed. Often from GMO corn. May contain processing chemicals." }),
    ("mono and diglycerides".data, { grade := "C", reason := "May contain trans fats. Loophole in trans fat labeling." }),
    ("monoglycerides".data, { grade := "C", reason := "May contain trans fats. Loophole in trans fat labeling." }),
    ("diglycerides".data, { grade := "C", reason := "May contain trans fats. Loophole in trans fat labeling." }),
    ("soy lecithin".data, { grade := "C", reason := "Usually GMO. Highly processed extraction." }),
    ("citric acid".data, { grade := "C", reason := "Usually manufactured from GMO corn mold, not citrus." }),
    ("xanthan gum".data, { grade := "C", reason := "May cause digestive issues in some people." }),
    ("natural flavors".data, { grade := "C", reason := "Can contain up to 100 different chemicals, undisclosed", hidden_truth := some "natural_flavors" }),
    ("artificial flavors".data, { grade := "C", reason := "Synthetic chemicals, undisclosed components" }),
    ("msg".data, { grade := "C", reason := "Flavor enhancer. Headaches in sensitive individuals, allergies." }),
    ("monosodium glutamate".data, { grade := "C", reason := "Flavor enhancer. Headaches in sensitive individuals, allergies." }) ]

/-- `TIER_4_SAFE` (tiers A/B, green); keys are matched by substring against the lower-cased ingredient. -/
def TIER_4_SAFE : List (List Char × TableEntry) :=
  [ ("whole wheat flour".data, { grade := "A", reason := "Minimally processed whole grain." }),
    ("whole grain".data, { grade := "A", reason := "Minimally processed, nutrient-rich." }),
    ("olive oil".data, { grade := "A", reason := "Heart-healthy monounsaturated fats." }),
    ("butter".data, { grade := "B", reason := "Natural dairy fat. Better than processed alternatives." }),
    ("sea salt".data, { grade := "B", reason := "Minimally processed. Contains trace minerals." }),
    ("salt".data, { grade := "B", reason := "Minimal processing." }),
    ("cane sugar".data, { grade := "B", reason := "Less processed than HFCS. Use in moderation." }),
    ("water".data, { grade := "A", reason := "Essential, no concerns." }),
    ("aqua".data, { grade := "A", reason := "Essential, no concerns." }),
    ("organic".data, { grade := "A", reason := "No synthetic pesticides. Better farming practices.", bonus := true }),
    ("non-gmo verified".data, { grade := "A", reason := "Verified non-GMO.", bonus := true }),
    ("non-gmo".data, { grade := "A", reason := "Non-GMO.", bonus := true }),
    ("fair trade".data, { grade := "A", reason := "Ethical sourcing verified.", bonus := true }),
    ("usda organic".data, { grade := "A", reason := "Certified organic, no synthetic pesticides.", bonus := true }),
    ("glycerin".data, { grade := "A", reason := "Safe, natural humectant." }),
    ("vegetable glycerin".data, { grade := "A", reason := "Safe, natural humectant." }),
    ("vitamin e".data, { grade := "A", reason := "Antioxidant, beneficial." }),
    ("tocopherol".data, { grade := "A", reason := "Vitamin E, antioxidant." }),
    ("baking soda".data, { grade := "A", reason := "Safe, natural." }),
    ("sodium bicarbonate".data, { grade := "A", reason := "Safe, natural." }),
    ("vinegar".data, { grade := "A", reason := "Safe, natural preservative." }),
    ("acetic acid".data, { grade := "B", reason := "Safe, natural acid." }) ]

/-- `NOVA_4_MARKERS`: ultra-processing marker vocabulary. -/
def NOVA_4_MARKERS : List (List Char) :=
  [ "high fructose corn syrup".data,
    "hfcs".data,
    "maltodextrin".data,
    "hydrogenated".data,
    "partially hydrogenated".data,
    "isolated protein".data,
    "modified starch".data,
    "modified food starch".data,
    "interesterified".data,
    "hydrolysed".data,
    "hydrolyzed".data,
    "artificial flavor".data,
    "natural flavor".data,
    "emulsifier".data,
    "humectant".data,
    "flavor enhancer".data,
    "colors".data,
    "dyes".data,
    "artificial color".data,
    "anti-caking".data,
    "bulking agent".data,
    "carbonating".data,
    "foaming".data,
    "gelling agent".data,
    "glazing agent".data,
    "enriched".data,
    "refined".data,
    "bleached".data,
    "tbhq".data,
    "bha".data,
    "bht".data,
    "sodium benzoate".data,
    "potassium sorbate".data,
    "calcium propionate".data,
    "yellow 5".data,
    "yellow 6".data,
    "red 40".data,
    "red 3".data,
    "blue 1".data,
    "blue 2".data,
    "caramel color".data,
    "corn syrup".data,
    "invert sugar".data,
    "glucose syrup".data,
    "dextrose".data,
    "maltose".data ]

/-- `CORPORATE_PENALTIES`: parent company, penalty, owned brand names
(matched by substring against the lower-cased product brand), notable brands
and issue texts. -/
def CORPORATE_PENALTIES : List (String × CorpEntry) :=
  [ ("Nestlé",
      { penalty := -15,
        brands := ["Gerber".data, "DiGiorno".data, "Stouffer's".data, "Hot Pockets".data, "Lean Cuisine".data, "Coffee-Mate".data, "Carnation".data, "Häagen-Dazs".data, "Dreyer's".data, "Nestle".data],
        notable_brands := ["Lean Cuisine", "Hot Pockets", "DiGiorno", "Gerber"],
        issues := ["Baby formula marketing violations (WHO code)",
        "Child labor in cocoa supply chain",
        "Water extraction from drought areas",
        "Microplastics contamination scandals"] }),
    ("PepsiCo",
      { penalty := -12,
        brands := ["Quaker".data, "Frito-Lay".data, "Tropicana".data, "Gatorade".data, "Naked Juice".data, "Sabra".data, "Siete Foods".data, "Poppi".data, "Pepsi".data, "Lay's".data, "Doritos".data],
        notable_brands := ["Naked Juice", "Tropicana", "Doritos", "Pepsi"],
        issues := ["$9M settlement for 'all natural' GMO fraud (Naked Juice)",
        "Lobbying against soda taxes",
        "Plastic pollution (4th worst polluter globally)"] }),
    ("Kraft Heinz",
      { penalty := -12,
        brands := ["Oscar Mayer".data, "Lunchables".data, "Velveeta".data, "Philadelphia".data, "Jell-O".data, "Kool-Aid".data, "Maxwell House".data, "Capri Sun".data, "Kraft".data, "Heinz".data],
        notable_brands := ["Lunchables", "Oscar Mayer", "Velveeta", "Kool-Aid"],
        issues := ["Named in SF lawsuit (Dec 2025) for 'tobacco playbook' tactics",
        "Heavy lobbying against food safety regulations",
        "Ultra-processed foods marketed to children"] }),
    ("General Mills",
      { penalty := -10,
        brands := ["Annie's".data, "Cascadian Farm".data, "Lärabar".data, "Nature Valley".data, "Cheerios".data, "Lucky Charms".data, "Yoplait".data, "Häagen-Dazs".data],
        notable_brands := ["Annie's Organic", "Cascadian Farm", "Lucky Charms", "Yoplait"],
        issues := ["Glyphosate residues in Cheerios products",
        "Owns 'healthy' brands while selling sugary cereals",
        "Lobbied against GMO labeling"] }),
    ("Kellogg's",
      { penalty := -10,
        brands := ["Kashi".data, "MorningStar Farms".data, "Bear Naked".data, "RXBar".data, "Pringles".data, "Cheez-It".data, "Pop-Tarts".data, "Eggo".data, "Kellogg".data],
        notable_brands := ["Kashi", "MorningStar Farms", "Pop-Tarts", "Cheez-It"],
        issues := ["Named in SF lawsuit for ultra-processed foods",
        "Bought 'healthy' brands to capture health-conscious consumers",
        "High sugar products marketed with health claims"] }),
    ("Mars",
      { penalty := -10,
        brands := ["M&M's".data, "Snickers".data, "Skittles".data, "Twix".data, "Uncle Ben's".data, "Pedigree".data, "Whiskas".data, "Mars".data],
        notable_brands := ["M&M's", "Snickers", "Skittles", "Twix"],
        issues := ["Named in SF lawsuit",
        "Child labor in cocoa supply chain",
        "Artificial dyes with EU warning requirements"] }),
    ("Mondelez",
      { penalty := -10,
        brands := ["Oreo".data, "Chips Ahoy".data, "Ritz".data, "Triscuit".data, "Wheat Thins".data, "Cadbury".data, "Toblerone".data, "Philadelphia".data],
        notable_brands := ["Oreo", "Triscuit", "Cadbury", "Philadelphia"],
        issues := ["Named in SF lawsuit",
        "Spun off from Kraft to avoid US regulations",
        "Child labor in cocoa supply chain"] }),
    ("Coca-Cola",
      { penalty := -12,
        brands := ["Minute Maid".data, "Simply".data, "Honest Tea".data, "vitaminwater".data, "Fairlife".data, "Topo Chico".data, "Costa Coffee".data, "Coca-Cola".data, "Coke".data],
        notable_brands := ["Honest Tea", "vitaminwater", "Coca-Cola", "Minute Maid"],
        issues := ["Named in SF lawsuit",
        "$7M+ annual lobbying",
        "Deceptive marketing of 'vitamin' water (settled lawsuit)",
        "Plastic pollution (world's #1 polluter)"] }),
    ("ConAgra",
      { penalty := -10,
        brands := ["Healthy Choice".data, "Marie Callender's".data, "Hunt's".data, "PAM".data, "Slim Jim".data, "Chef Boyardee".data, "Banquet".data, "ConAgra".data],
        notable_brands := ["Healthy Choice", "Marie Callender's", "Slim Jim", "Chef Boyardee"],
        issues := ["Named in SF lawsuit",
        "Ironic naming of 'Healthy Choice' ultra-processed meals",
        "Lobbied against country of origin labeling"] }),
    ("Unilever",
      { penalty := -8,
        brands := ["Ben & Jerry's".data, "Hellmann's".data, "Knorr".data, "Lipton".data, "Breyers".data, "Magnum".data, "Talenti".data, "Unilever".data],
        notable_brands := ["Ben & Jerry's", "Hellmann's", "Breyers", "Magnum"],
        issues := ["Palm oil sourcing controversies",
        "Owns ethical brands while selling processed foods",
        "Deforestation supply chain links"] }) ]

/-- The certification keywords scanned by the supply-chain dimension. -/
def CERT_KEYWORDS : List (List Char) :=
  [ "organic".data, "fair trade".data, "non-gmo".data,
    "rainforest alliance".data, "b-corp".data, "usda organic".data ]

/-- The monoculture-crop keywords of the supply-chain dimension. -/
def MONOCULTURE_KEYWORDS : List (List Char) :=
  [ "corn".data, "soy".data, "palm".data, "canola".data ]

/-- One entry of `ingredients_graded`: name, grade letter, colour, reason,
per-ingredient hazard score, and the `hidden_truth_key` selected during
classification (the narrative text it indexes is not modelled). -/
structure IngredientGrade where
  name : List Char
  grade : String
  color : String
  reason : String
  hazard_score : Int
  hidden_truth_key : Option String
deriving DecidableEq, Repr

/-- The default classification reached when no tier table matches. -/
def defaultClassification (ingredient : List Char) : IngredientGrade :=
  { name := ingredient, grade := "C", color := "#facc15",
    reason := "Unknown - not in safety database. May have bypassed FDA review via GRAS loophole.",
    hazard_score := 60, hidden_truth_key := some "GRAS_unknown" }

/-- The per-ingredient classification loop of `calculate_v4_score`:
tier tables checked in priority order F, D, C, then A/B, first matching key
(by substring in the lower-cased ingredient) wins; no match falls through
to the tier C / score 60 / GRAS-unknown default. -/
def classifyIngredient (ingredient : List Char) : IngredientGrade :=
  let ing_lower := lowerStr ingredient
  match TIER_1_AVOID.find? (fun kv => isSubstr kv.1 ing_lower) with
  | some kv =>
      { name := ingredient, grade := "F", color := "#ef4444",
        reason := kv.2.reason, hazard_score := 0,
        hidden_truth_key := kv.2.hidden_truth }
  | none =>
  match TIER_2_LIMIT.find? (fun kv => isSubstr kv.1 ing_lower) with
  | some kv =>
      { name := ingredient, grade := "D", color := "#f97316",
        reason := kv.2.reason, hazard_score := 35,
        hidden_truth_key := none }
  | none =>
  match TIER_3_CAUTION.find? (fun kv => isSubstr kv.1 ing_lower) with
  | some kv =>
      { name := ingredient, grade := "C", color := "#facc15",
        reason := kv.2.reason, hazard_score := 55,
        hidden_truth_key := kv.2.hidden_truth }
  | none =>
  match TIER_4_SAFE.find? (fun kv => isSubstr kv.1 ing_lower) with
  | some kv =>
      { name := ingredient, grade := kv.2.grade,
        color := if kv.2.grade = "A" then "#22c55e" else "#4ade80",
        reason := kv.2.reason,
        hazard_score := if kv.2.grade = "A" then 95 else 80,
        hidden_truth_key := none }
  | none => defaultClassification ingredient

/-- All tier-table keys, in the priority order they are consulted. -/
def allTierKeys : List (List Char) :=
  (TIER_1_AVOID ++ TIER_2_LIMIT ++ TIER_3_CAUTION ++ TIER_4_SAFE).map Prod.fst

/-- `grade_order.get(grade, 2)`: sort key for worst-first ordering. -/
def gradeOrder (g : String) : Int :=
  ([("F", 0), ("D", 1), ("C", 2), ("B", 3), ("A", 4)].lookup g).getD 2

/-- `ingredients_graded.sort(key=...)`: Python's sort is stable, and the key
takes only the five values 0–4, so the sorted list is the concatenation of
the five key buckets in key order. -/
def sortWorstFirst (l : List IngredientGrade) : List IngredientGrade :=
  (([0, 1, 2, 3, 4] : List Int).map
    (fun k => l.filter (fun g => gradeOrder g.grade = k))).flatten

/-- The input of `calculate_v4_score`: the `product_data` dict.
`repr_lower` stands for `str(product_data).lower()`, the serialized dict the
supply-chain dimension greps for certification keywords; it is carried as
part of the input because `str()` of a Python dict is not otherwise
observable in the model. -/
structure ProductData where
  ingredients : List (List Char)
  brand : List Char
  repr_lower : List Char
deriving DecidableEq, Repr

/-- `brand = product_data.get("brand", "").lower()` -/
def brandLower (p : ProductData) : List Char := lowerStr p.brand

/-- The graded ingredient list before sorting, in input order. -/
def ingredientsGradedRaw (p : ProductData) : List IngredientGrade :=
  p.ingredients.map classifyIngredient

/-- `ingredients_graded` after the worst-first sort. -/
def ingredients_graded (p : ProductData) : List IngredientGrade :=
  sortWorstFirst (ingredientsGradedRaw p)

/-- Dimension 1, `ingredient_safety_score`: mean of the per-ingredient
scores, 50 for an empty list. -/
def ingredient_safety_score (p : ProductData) : ℚ :=
  let scores := (ingredientsGradedRaw p).map IngredientGrade.hazard_score
  if scores = [] then 50
  else ((scores.sum : ℚ) / (scores.length : ℚ))

/-- `nova_markers_found`: ingredients containing a NOVA marker, each
ingredient counted at most once. -/
def nova_markers_found (p : ProductData) : Nat :=
  p.ingredients.countP
    (fun ing => NOVA_4_MARKERS.any (fun m => isSubstr m (lowerStr ing)))

/-- Dimension 2, `processing_score`. -/
def processing_score (p : ProductData) : ℚ :=
  if nova_markers_found p ≥ 5 then 20
  else if nova_markers_found p ≥ 3 then 40
  else if nova_markers_found p ≥ 1 then 60
  else 90

/-- The first corporate-ownership match: a parent whose brand list has an
entry whose lower-casing occurs in the product brand. -/
def corporateMatch (p : ProductData) : Option (String × CorpEntry) :=
  CORPORATE_PENALTIES.find?
    (fun pc => pc.2.brands.any (fun b => isSubstr (lowerStr b) (brandLower p)))

/-- Dimension 3, `corporate_score`: 70 plus the matched parent's penalty
(none: 70), clamped to [0, 100]. -/
def corporate_score (p : ProductData) : ℚ :=
  let base : ℚ :=
    match corporateMatch p with
    | some pc => 70 + (pc.2.penalty : ℚ)
    | none => 70
  max 0 (min 100 base)

/-- `parent_company` -/
def parent_company (p : ProductData) : Option String :=
  (corporateMatch p).map Prod.fst

/-- Certification keywords found in the serialized product record. -/
def cert_count (p : ProductData) : Nat :=
  CERT_KEYWORDS.countP (fun cert => isSubstr cert p.repr_lower)

/-- Ingredients matching a monoculture keyword, each counted at most once. -/
def monoculture_count (p : ProductData) : Nat :=
  p.ingredients.countP
    (fun ing => MONOCULTURE_KEYWORDS.any (fun k => isSubstr k (lowerStr ing)))

/-- Dimension 4, `supply_chain_score`: 50, +10 per certification keyword,
−15 when at least 3 monoculture ingredients, clamped to [0, 100]. -/
def supply_chain_score (p : ProductData) : ℚ :=
  let s : ℚ := 50 + 10 * (cert_count p : ℚ)
  let s : ℚ := if monoculture_count p ≥ 3 then s - 15 else s
  max 0 (min 100 s)

/-- The weighted 40/25/20/15 sum (step 5; the `overall_score` float before
the cap, rounding and clamping). -/
def rawOverallScore (p : ProductData) : ℚ :=
  ingredient_safety_score p * 0.40 + processing_score p * 0.25 +
    corporate_score p * 0.20 + supply_chain_score p * 0.15

/-- `has_f_grade` -/
def has_f_grade (p : ProductData) : Bool :=
  (ingredients_graded p).any (fun g => g.grade = "F")

/-- `has_d_grade` -/
def has_d_grade (p : ProductData) : Bool :=
  (ingredients_graded p).any (fun g => g.grade = "D")

/-- `has_c_grade` -/
def has_c_grade (p : ProductData) : Bool :=
  (ingredients_graded p).any (fun g => g.grade = "C")

/-- The score-cap `if`/`elif` chain: a single cap, most severe first. -/
def cappedOverallScore (p : ProductData) : ℚ :=
  if has_f_grade p then min (rawOverallScore p) 29
  else if has_d_grade p then min (rawOverallScore p) 49
  else if has_c_grade p then min (rawOverallScore p) 69
  else rawOverallScore p

/-- Python 3 `round` to an integer: banker's rounding, half to even. -/
def pythonRound (q : ℚ) : Int :=
  if q - ⌊q⌋ < 1 / 2 then ⌊q⌋
  else if 1 / 2 < q - ⌊q⌋ then ⌊q⌋ + 1
  else if ⌊q⌋ % 2 = 0 then ⌊q⌋ else ⌊q⌋ + 1

/-- `overall_score = max(0, min(100, round(overall_score)))` -/
def overall_score (p : ProductData) : Int :=
  max 0 (min 100 (pythonRound (cappedOverallScore p)))

/-- The grade thresholds. -/
def overall_grade (p : ProductData) : String :=
  if overall_score p ≥ 95 then "A+"
  else if overall_score p ≥ 85 then "A"
  else if overall_score p ≥ 70 then "B"
  else if overall_score p ≥ 50 then "C"
  else if overall_score p ≥ 30 then "D"
  else "F"

/-- The modelled fields of the dict returned by `calculate_v4_score`
(each dimension score is `round`ed for the response). -/
structure V4Result where
  overall_score : Int
  overall_grade : String
  ingredient_safety : Int
  processing_level : Int
  corporate_ethics : Int
  supply_chain : Int
  ingredients_graded : List IngredientGrade
  parent_company : Option String
deriving DecidableEq, Repr

/-- `calculate_v4_score(product_data)`, assembled from the dimension
definitions above. -/
def calculate_v4_score (p : ProductData) : V4Result :=
  { overall_score := overall_score p
    overall_grade := overall_grade p
    ingredient_safety := pythonRound (ingredient_safety_score p)
    processing_level := pythonRound (processing_score p)
    corporate_ethics := pythonRound (corporate_score p)
    supply_chain := pythonRound (supply_chain_score p)
    ingredients_graded := ingredients_graded p
    parent_company := parent_company p }


/-! ## Cache-key normalization (`normalize_cache_key`)

The source lower-cases and strips both inputs, then runs four `re.sub`
stages on the name (ordered variant patterns, punctuation removal,
whitespace collapse) and two on the brand.  We embed a small backtracking
matcher covering exactly the regex constructs those patterns use:
character classes `\s`, `\d`, `.`, `[^\w\s]` with greedy `*` (a greedy `+`
is written class-once followed by class-star, which searches the same
extents in the same order), case-insensitive literals (`re.IGNORECASE`),
ordered alternation of literals, and the `$` anchor (end of string, or
just before one final newline).  Matching follows Python's leftmost-match,
greedy-with-backtracking order and `re.sub` replaces non-overlapping
matches left to right.  Character classes are modelled on the ASCII range,
where Python's Unicode classes agree with them. -/

/-- Python `\s` on the ASCII range: space, tab, newline, vertical tab,
form feed, carriage return. -/
def isSpace (c : Char) : Bool :=
  c == ' ' || c == '\t' || c == '\n' || c == '\x0b' || c == '\x0c' || c == '\r'

/-- Python `\d` on the ASCII range. -/
def isDigit (c : Char) : Bool := '0' ≤ c && c ≤ '9'

/-- Python `\w` on the ASCII range. -/
def isWordChar (c : Char) : Bool :=
  ('a' ≤ c && c ≤ 'z') || ('A' ≤ c && c ≤ 'Z') || isDigit c || c == '_'

/-- `.` without `re.DOTALL`: anything but a newline. -/
def isDot (c : Char) : Bool := !(c == '\n')

/-- Greedy quantifiers appearing in the source patterns. -/
inductive Quant where
  | one
  | star

/-- One regex item: a character class with quantifier, a literal, an
ordered alternation of literals, or the `$` anchor. -/
inductive RItem where
  | cls (p : Char → Bool) (q : Quant)
  | lit (l : List Char)
  | alts (ls : List (List Char))
  | dollar

/-- Case-insensitive literal match at the head of `s` (all pattern
literals are lower case). -/
def litMatch (l : List Char) (s : List Char) : Bool :=
  (s.take l.length).map pyLower == l

/-- Length of the run of class characters at the head of the string. -/
def countLeading (p : Char → Bool) : List Char → Nat
  | [] => 0
  | c :: rest => if p c then countLeading p rest + 1 else 0

/-- Try the alternatives in order; on each literal hit the continuation `f`
(matching of the remaining items) must also succeed, otherwise backtrack to
the next alternative. -/
def altSearch (f : List Char → Option Nat) : List (List Char) → List Char → Option Nat
  | [], _ => none
  | l :: ls, s =>
      if litMatch l s then
        match (f (s.drop l.length)).map (· + l.length) with
        | some r => some r
        | none => altSearch f ls s
      else altSearch f ls s

/-- Greedy star: try consuming `k` class characters, largest first, running
the continuation `f` (matching of the remaining items) on what is left. -/
def starSearch (f : List Char → Option Nat) (s : List Char) : Nat → Option Nat
  | 0 => f s
  | k + 1 =>
      match (f (s.drop (k + 1))).map (· + (k + 1)) with
      | some r => some r
      | none => starSearch f s k

/-- Match the items against a prefix of `s`; `some n` is the number of
characters the (backtracking-first) match consumes. -/
def matchLen : List RItem → List Char → Option Nat
  | [], _ => some 0
  | .dollar :: rest, s =>
      if s = [] ∨ s = ['\n'] then matchLen rest s else none
  | .lit l :: rest, s =>
      if litMatch l s then (matchLen rest (s.drop l.length)).map (· + l.length)
      else none
  | .alts ls :: rest, s => altSearch (matchLen rest) ls s
  | .cls p .one :: rest, s =>
      match s with
      | [] => none
      | c :: s' => if p c then (matchLen rest s').map (· + 1) else none
  | .cls p .star :: rest, s => starSearch (matchLen rest) s (countLeading p s)

/-- Fuelled scan of `re.sub` (the fuel is the string length, consumed one
unit per position; the fuel-0 non-empty case is unreachable). -/
def pySubAux (pat : List RItem) (rep : List Char) : Nat → List Char → List Char
  | _, [] =>
      match matchLen pat [] with
      | some _ => rep
      | none => []
  | 0, _ :: _ => []
  | fuel + 1, c :: rest =>
      match matchLen pat (c :: rest) with
      | some 0 => rep ++ c :: pySubAux pat rep fuel rest
      | some (k + 1) => rep ++ pySubAux pat rep fuel (rest.drop k)
      | none => c :: pySubAux pat rep fuel rest

/-- `re.sub(pattern, rep, s)`: scan left to right, replace each
non-overlapping match (a zero-width match emits the replacement and
advances one character; no source pattern can match empty). -/
def pySub (pat : List RItem) (rep : List Char) (s : List Char) : List Char :=
  pySubAux pat rep s.length s

/-- Python `str.strip()`. -/
def pyStrip (s : List Char) : List Char :=
  ((s.dropWhile isSpace).reverse.dropWhile isSpace).reverse

/-- `r'\s*-\s*.*$'`: everything after a dash. -/
def P_dash : List RItem :=
  [.cls isSpace .star, .lit ['-'], .cls isSpace .star, .cls isDot .star, .dollar]

/-- `r'\s+<keyword>.*'`: a scent/variant keyword and the rest of the line. -/
def kwPattern (w : List Char) : List RItem :=
  [.cls isSpace .one, .cls isSpace .star, .lit w, .cls isDot .star]

/-- The size-unit alternation `(oz|ml|ct|count|pack)`. -/
def sizeAlts : List (List Char) :=
  ["oz".data, "ml".data, "ct".data, "count".data, "pack".data]

/-- `r'\s+\d+\s*(oz|ml|ct|count|pack).*'`: size/count tokens. -/
def P_size : List RItem :=
  [.cls isSpace .one, .cls isSpace .star, .cls isDigit .one, .cls isDigit .star,
   .cls isSpace .star, .alts sizeAlts, .cls isDot .star]

/-- `r'[^\w\s]'`: one punctuation character. -/
def P_punct : List RItem :=
  [.cls (fun c => !(isWordChar c || isSpace c)) .one]

/-- `r'\s+'`: a whitespace run. -/
def P_wsRun : List RItem := [.cls isSpace .one, .cls isSpace .star]

/-- The `variant_patterns` list, in source order. -/
def variantPatterns : List (List RItem) :=
  [ P_dash, kwPattern "lemon".data, kwPattern "fresh".data,
    kwPattern "original".data, kwPattern "crisp".data, kwPattern "clean".data,
    kwPattern "lavender".data, kwPattern "citrus".data,
    kwPattern "unscented".data, P_size, kwPattern "value".data,
    kwPattern "family".data, kwPattern "travel".data ]

/-- `normalize_cache_key(brand, product_name)`. -/
def normalize_cache_key (brand product_name : List Char) : List Char :=
  let brand_clean := pyStrip (lowerStr brand)
  let name_clean := pyStrip (lowerStr product_name)
  let name_clean := variantPatterns.foldl (fun s pat => pySub pat [] s) name_clean
  let name_clean := pySub P_punct [] name_clean
  let name_clean := pyStrip (pySub P_wsRun [' '] name_clean)
  let brand_clean := pySub P_punct [] brand_clean
  let brand_clean := pyStrip (pySub P_wsRun [' '] brand_clean)
  brand_clean ++ ':' :: name_clean

/-- The brand segment of a produced key: the part before the first `':'`. -/
def brandSegment (key : List Char) : List Char :=
  key.takeWhile (fun c => !(c == ':'))

/-- The name segment of a produced key: the part after the first `':'`. -/
def nameSegment (key : List Char) : List Char :=
  (key.dropWhile (fun c => !(c == ':'))).drop 1

/-! ### Infrastructure for the idempotence analysis of `normalize_cache_key`

The amended idempotence statement restricts inputs to word characters and
spaces (the counterexample shows punctuation breaks idempotence, and a
newline embedded before a keyword breaks it the same way, because
punctuation stripping and whitespace collapsing can expose a fresh variant
match).  The predicates below describe such strings and the occurrences of
the keyword/size patterns inside them. -/

/-- The word characters and the space: the alphabet of the amended
idempotence claim. -/
def tameChars : List Char :=
  "ABCDEFGHIJKLMNOPQRSTUVWXYZabcdefghijklmnopqrstuvwxyz0123456789_ ".data

/-- A character of the amended claim's input alphabet. -/
def tameChar (c : Char) : Bool := tameChars.contains c

/-- The lower-cased tame alphabet. -/
def lowTameChars : List Char :=
  "abcdefghijklmnopqrstuvwxyz0123456789_ ".data

/-- A lower-cased tame character. -/
def lowTame (c : Char) : Bool := lowTameChars.contains c

/-- A string of lower-cased word characters and plain spaces. -/
def LowTame (s : List Char) : Prop := ∀ c ∈ s, lowTame c = true

/-- An occurrence of a space directly followed by the keyword `w` —
exactly what `r'\s+<w>.*'` can grab inside a space-and-word string. -/
def SpKw (w s : List Char) : Prop := ∃ u v, s = u ++ ' ' :: (w ++ v)

/-- An occurrence of a space, a digit run, optional spaces and a size unit —
what `r'\s+\d+\s*(oz|ml|ct|count|pack).*'` can grab inside a
space-and-word string. -/
def SpSize (s : List Char) : Prop :=
  ∃ u d sp a v, s = u ++ ' ' :: (d ++ (sp ++ (a ++ v))) ∧ d ≠ [] ∧
    (∀ c ∈ d, isDigit c = true) ∧ (∀ c ∈ sp, c = ' ') ∧ a ∈ sizeAlts

/-- The keyword of a variant pattern: non-empty, already lower case, free
of whitespace.  Every keyword of `variantPatterns` satisfies this. -/
def KwOk (w : List Char) : Prop :=
  w ≠ [] ∧ ∀ c ∈ w, pyLower c = c ∧ isSpace c = false

/-- A whitespace-collapsed string: every whitespace character is a plain
space and no two whitespace characters are adjacent. -/
def Collapsed : List Char → Prop
  | [] => True
  | [c] => isSpace c = true → c = ' '
  | c :: d :: rest =>
      (isSpace c = true → c = ' ' ∧ isSpace d = false) ∧ Collapsed (d :: rest)

/-! ## Theorems: job state machine -/

/-- Fetching after `update_job_progress`: the stored record is the fetched
record with progress and step overwritten (when the job exists). -/
theorem get_update_job_progress (s : JobStore ρ) (job_id : String)
    (p : Int) (st : String) (j : Job ρ) (h : get_job s job_id = some j) :
    get_job (update_job_progress s job_id p st) job_id
      = some (applyUpdate j p st) := by
  unfold update_job_progress
  rw [h]
  simp [save_job, get_job]

/-- Fetching after `fail_job`. -/
theorem get_fail_job (s : JobStore ρ) (job_id : String)
    (e now : String) (j : Job ρ) (h : get_job s job_id = some j) :
    get_job (fail_job s job_id e now) job_id = some (applyFail j e now) := by
  unfold fail_job
  rw [h]
  simp [save_job, get_job]

/-- C2 counterexample: a COMPLETED job's stored record *does* change under a
subsequent `update_job_progress` — the progress field is overwritten.  The
store holds the completed job `(progress 100)`; after
`update_job_progress(j1, 42, "again")` the stored progress is 42. -/
theorem c2_update_not_noop_on_completed :
    let s₀ : JobStore String :=
      save_job (emptyStore String) "j1"
        (applyComplete (initialJob String "j1" "t0") "report" "t1")
    ((get_job s₀ "j1").map Job.status = some JobStatus.completed) ∧
    get_job (update_job_progress s₀ "j1" 42 "again") "j1" ≠ get_job s₀ "j1" := by
  decide

/-- C2 (amended): on a terminal (COMPLETED or FAILED) job,
`update_job_progress` is not a no-op: it overwrites `progress` and
`current_step`, while `status`, `result`, `error`, `created_at` and
`completed_at` keep their stored values. -/
theorem c2_update_on_terminal_overwrites_progress_only
    (s : JobStore ρ) (job_id : String) (p : Int) (st : String) (j : Job ρ)
    (hget : get_job s job_id = some j)
    (hterm : j.status = JobStatus.completed ∨ j.status = JobStatus.failed) :
    get_job (update_job_progress s job_id p st) job_id
      = some { j with progress := p, current_step := some st } := by
  have h := get_update_job_progress s job_id p st j hget
  exact hterm.elim (fun _ => h) (fun _ => h)

/-- C2 witness: the amended theorem applied at the concrete completed job. -/
theorem c2_witness :
    get_job (update_job_progress
        (save_job (emptyStore Nat) "j1"
          (applyComplete (initialJob Nat "j1" "t0") 7 "t1")) "j1" 42 "again") "j1"
      = some { (applyComplete (initialJob Nat "j1" "t0") 7 "t1") with
               progress := 42, current_step := some "again" } :=
  c2_update_on_terminal_overwrites_progress_only
    (save_job (emptyStore Nat) "j1"
      (applyComplete (initialJob Nat "j1" "t0") 7 "t1")) "j1" 42 "again"
    (applyComplete (initialJob Nat "j1" "t0") 7 "t1") (by decide)
    (Or.inl (by decide))

/-- C10: `fail_job` only touches `status`, `error` and `completed_at`; the
record otherwise keeps its previous values, so a job failing with progress
below 100 stays observable that way next to its error message. -/
theorem c10_fail_job_frame (s : JobStore ρ) (job_id : String)
    (e now : String) (j : Job ρ) (hget : get_job s job_id = some j) :
    get_job (fail_job s job_id e now) job_id
      = some { j with status := JobStatus.failed, error := some e,
                      completed_at := some now } ∧
    (j.progress < 100 →
      (get_job (fail_job s job_id e now) job_id).map Job.progress
        = some j.progress ∧ j.progress < 100) := by
  have h := get_fail_job s job_id e now j hget
  refine ⟨h, fun hp => ⟨?_, hp⟩⟩
  rw [h]
  rfl

/-- C10 witness: `fail_job` at a half-done concrete job. -/
theorem c10_witness :
    get_job (fail_job
        (save_job (emptyStore Nat) "j1"
          (applyUpdate (initialJob Nat "j1" "t0") 50 "Investigating supply chain..."))
        "j1" "boom" "t2") "j1"
      = some { (applyUpdate (initialJob Nat "j1" "t0") 50
                  "Investigating supply chain...") with
               status := JobStatus.failed, error := some "boom",
               completed_at := some "t2" } :=
  (c10_fail_job_frame
    (save_job (emptyStore Nat) "j1"
      (applyUpdate (initialJob Nat "j1" "t0") 50 "Investigating supply chain..."))
    "j1" "boom" "t2"
    (applyUpdate (initialJob Nat "j1" "t0") 50 "Investigating supply chain...")
    (by decide)).1

/-- C7 counterexample: the result/error–status biconditional fails on a
reachable state.  `fail_job` after `complete_job` (exactly the worker's
`except` path once `complete_job` has already run) leaves the COMPLETED
result payload in place under status FAILED. -/
theorem c7_invariant_fails_on_reachable_state :
    JReach String
      (applyFail (applyComplete (initialJob String "j1" "t0") "report" "t1")
        "boom" "t2") ∧
    ¬ InvJob (applyFail (applyComplete (initialJob String "j1" "t0") "report" "t1")
        "boom" "t2") :=
  ⟨JReach.fail "boom" "t2" (JReach.complete "report" "t1" (JReach.fresh "j1" "t0")),
   by decide⟩

/-- C7 (amended): in every job state reachable from job creation via
`update_job_progress`, `complete_job` and `fail_job` in which the two
terminal operations are only applied to a not-yet-terminal job, `result`
is non-null iff the status is COMPLETED and `error` is non-null iff the
status is FAILED. -/
theorem c7_result_error_status_invariant {j : Job ρ}
    (h : JReachGuarded ρ j) : InvJob j := by
  induction h with
  | fresh job_id created_at =>
      refine ⟨?_, ?_⟩ <;> simp [initialJob, JobStatus.pending,
        JobStatus.completed, JobStatus.failed]
  | cached cache_key generated_at res =>
      refine ⟨?_, ?_⟩ <;> simp [cachedJob, JobStatus.completed, JobStatus.failed]
  | update progress current_step _ ih =>
      exact ⟨by simpa [applyUpdate] using ih.1, by simpa [applyUpdate] using ih.2⟩
  | @complete j' result now _ hc hf ih =>
      refine ⟨?_, ?_⟩
      · simp [applyComplete]
      · have herr : j'.error = none := by
          by_contra hne
          exact hf (ih.2.mp hne)
        simp [applyComplete, herr, JobStatus.completed, JobStatus.failed]
  | @fail j' error now _ hc hf ih =>
      refine ⟨?_, ?_⟩
      · have hres : j'.result = none := by
          by_contra hne
          exact hc (ih.1.mp hne)
        simp [applyFail, hres, JobStatus.completed, JobStatus.failed]
      · simp [applyFail]

/-- C7 witness: the invariant holds at the completed job reached by the
worker's success path. -/
theorem c7_witness :
    InvJob (applyComplete
      (applyUpdate (initialJob Nat "j1" "t0") 10 "Preparing comprehensive analysis...")
      5 "t1") :=
  c7_result_error_status_invariant
    (JReachGuarded.complete 5 "t1"
      (JReachGuarded.update 10 "Preparing comprehensive analysis..."
        (JReachGuarded.fresh "j1" "t0"))
      (by decide) (by decide))

/-- Replaying worker updates never changes the stored status. -/
theorem status_constant_under_updates (us : List (Int × String))
    (s : JobStore ρ) (job_id : String) (st : String)
    (h : (get_job s job_id).map Job.status = some st) :
    (get_job (us.foldl (fun acc u => update_job_progress acc job_id u.1 u.2) s)
        job_id).map Job.status = some st := by
  induction us generalizing s with
  | nil => exact h
  | cons u rest ih =>
      apply ih
      cases hj : get_job s job_id with
      | none =>
          rw [hj] at h
          exact absurd h (by simp)
      | some j =>
          rw [get_update_job_progress s job_id u.1 u.2 j hj]
          rw [hj] at h
          simpa [applyUpdate] using h

/-- C4: the job created PENDING by `start_deep_research` still has status
`"pending"` — never `"processing"` — after any prefix of the
`process_deep_research` progress updates: `update_job_progress` does not
write the status field, and `JobStatus.PROCESSING` is never assigned
anywhere in the source, although the worker's own comment says
"Mark as processing". -/
theorem c4_status_stays_pending_during_worker (job_id created_at : String)
    (k : Nat) :
    (get_job (runWorkerUpdates
        (save_job (emptyStore String) job_id (initialJob String job_id created_at))
        job_id k) job_id).map Job.status = some JobStatus.pending ∧
    JobStatus.pending ≠ JobStatus.processing := by
  constructor
  · apply status_constant_under_updates
    simp [save_job, get_job, emptyStore, initialJob]
  · decide

/-! ## Theorems: positive-claim bonuses -/

/-- Summing default bonuses: each attribute contributing 3 sums to
3 · length. -/
theorem sum_bonusPoints_of_default (l : List (Option Int))
    (hdef : ∀ a ∈ l, bonusPoints a = 3) :
    (l.map bonusPoints).sum = 3 * l.length := by
  induction l with
  | nil => simp
  | cons a t ih =>
      have ha : bonusPoints a = 3 := hdef a (List.mem_cons_self a t)
      have ht := ih (fun b hb => hdef b (List.mem_cons_of_mem a hb))
      simp [ha, ht]
      ring

/-- C9: with six positive attributes each contributing the default +3 bonus,
`apply_positive_bonuses` adds exactly +15 (the raw +18 is capped) and then
clamps to [0, 100]. -/
theorem c9_six_default_bonuses_add_fifteen (score : Int)
    (attrs : List (Option Int)) (hlen : attrs.length = 6)
    (hdef : ∀ a ∈ attrs, bonusPoints a = 3) :
    apply_positive_bonuses score attrs = max 0 (min 100 (score + 15)) := by
  have hne : attrs ≠ [] := by
    intro h
    rw [h] at hlen
    exact absurd hlen (by decide)
  have hsum : (attrs.map bonusPoints).sum = 18 := by
    rw [sum_bonusPoints_of_default attrs hdef, hlen]
    norm_num
  rw [apply_positive_bonuses, if_neg hne, hsum]
  norm_num

/-- C9 witness: six default attributes on a base score of 40 give 55. -/
theorem c9_witness :
    apply_positive_bonuses 40 (List.replicate 6 none) = max 0 (min 100 (40 + 15)) :=
  c9_six_default_bonuses_add_fifteen 40 (List.replicate 6 none) (by decide)
    (by
      intro a ha
      rw [List.eq_of_mem_replicate ha]
      rfl)

/-! ## Theorems: best-effort cache -/

/-- C5: when `db_pool` is absent, or every awaited store call raises, all
cache reads miss (`None` / fall through), the cache write returns `False`,
and `get_product_analysis` returns exactly the uncached
`research_product` result — no store failure reaches the caller. -/
theorem c5_cache_degrades_to_uncached (env : CacheEnv)
    (cache_key pn brand category report full_report : String)
    (vis : List String)
    (hdown : env.db_pool = false ∨
      (env.research_fetch.failed ∧ env.pdf_fetch.failed ∧
       env.products_fetch.failed ∧ env.research_save.failed)) :
    get_cached_deep_research env cache_key = none ∧
    get_cached_pdf_bytes env cache_key = none ∧
    save_deep_research_to_cache env cache_key pn brand category report
      full_report = false ∧
    get_product_analysis env pn brand category vis = env.research_result := by
  rcases hdown with hpool | ⟨h1, h2, h3, h4⟩
  · refine ⟨?_, ?_, ?_, ?_⟩ <;>
      simp [get_cached_deep_research, get_cached_pdf_bytes,
        save_deep_research_to_cache, get_product_analysis, hpool]
  · refine ⟨?_, ?_, ?_, ?_⟩
    · cases hf : env.research_fetch with
      | ok v => rw [hf] at h1; exact absurd h1 (by simp [Except.failed])
      | error e => simp [get_cached_deep_research, hf]
    · cases hf : env.pdf_fetch with
      | ok v => rw [hf] at h2; exact absurd h2 (by simp [Except.failed])
      | error e => simp [get_cached_pdf_bytes, hf]
    · cases hf : env.research_save with
      | ok v => rw [hf] at h4; exact absurd h4 (by simp [Except.failed])
      | error e => simp [save_deep_research_to_cache, hf]
    · cases hf : env.products_fetch with
      | ok v => rw [hf] at h3; exact absurd h3 (by simp [Except.failed])
      | error e => simp [get_product_analysis, hf]

/-- C5 witness: a concrete environment whose every store call raises. -/
theorem c5_witness :
    let env : CacheEnv :=
      { db_pool := true,
        research_fetch := .error "connection refused",
        pdf_fetch := .error "connection refused",
        products_fetch := .error "connection refused",
        research_save := .error "connection refused",
        products_save := .error "connection refused",
        research_result := "fresh-analysis" }
    get_cached_deep_research env "k" = none ∧
    get_cached_pdf_bytes env "k" = none ∧
    save_deep_research_to_cache env "k" "p" "b" "c" "r" "f" = false ∧
    get_product_analysis env "p" "b" "c" [] = "fresh-analysis" :=
  c5_cache_degrades_to_uncached _ "k" "p" "b" "c" "r" "f" []
    (Or.inr ⟨rfl, rfl, rfl, rfl⟩)

/-! ## Theorems: V4 tiered scoring engine -/

/-- Rounding never moves a value above an integer bound it sits below. -/
theorem pythonRound_le (q : ℚ) (c : Int) (h : q ≤ (c : ℚ)) : pythonRound q ≤ c := by
  have hf : ⌊q⌋ ≤ c := by
    have h1 : ⌊q⌋ ≤ ⌊(c : ℚ)⌋ := Int.floor_le_floor h
    simpa using h1
  have hfloor : (⌊q⌋ : ℚ) ≤ q := Int.floor_le q
  have hlt : 1 / 2 ≤ q - ⌊q⌋ → ⌊q⌋ + 1 ≤ c := by
    intro hr
    have h2 : (⌊q⌋ : ℚ) < (c : ℚ) := by linarith
    have h3 : ⌊q⌋ < c := by exact_mod_cast h2
    omega
  unfold pythonRound
  split_ifs with h1 h2 h3
  · exact hf
  · exact hlt (le_of_lt h2)
  · exact hf
  · exact hlt (le_of_not_lt h1)

/-- C1: the tier score-cap rule of `calculate_v4_score`: an F-grade
ingredient caps the overall score at 29; otherwise a D caps at 49;
otherwise a C caps at 69; in each case exactly the single most severe cap
is applied to the weighted 40/25/20/15 sum before rounding and clamping,
and no cap applies without a C, D or F grade. -/
theorem c1_tier_caps (p : ProductData) :
    (has_f_grade p = true →
      (calculate_v4_score p).overall_score ≤ 29 ∧
      (calculate_v4_score p).overall_score
        = max 0 (min 100 (pythonRound (min (rawOverallScore p) 29)))) ∧
    (has_f_grade p = false → has_d_grade p = true →
      (calculate_v4_score p).overall_score ≤ 49 ∧
      (calculate_v4_score p).overall_score
        = max 0 (min 100 (pythonRound (min (rawOverallScore p) 49)))) ∧
    (has_f_grade p = false → has_d_grade p = false → has_c_grade p = true →
      (calculate_v4_score p).overall_score ≤ 69 ∧
      (calculate_v4_score p).overall_score
        = max 0 (min 100 (pythonRound (min (rawOverallScore p) 69)))) ∧
    (has_f_grade p = false → has_d_grade p = false → has_c_grade p = false →
      (calculate_v4_score p).overall_score
        = max 0 (min 100 (pythonRound (rawOverallScore p)))) := by
  have hval : (calculate_v4_score p).overall_score
      = max 0 (min 100 (pythonRound (cappedOverallScore p))) := rfl
  refine ⟨?_, ?_, ?_, ?_⟩
  · intro hf
    have hcap : cappedOverallScore p = min (rawOverallScore p) 29 := by
      simp [cappedOverallScore, hf]
    have hle : pythonRound (min (rawOverallScore p) 29) ≤ 29 :=
      pythonRound_le _ 29 (by exact_mod_cast min_le_right (rawOverallScore p) 29)
    rw [hval, hcap]
    exact ⟨by omega, rfl⟩
  · intro hf hd
    have hcap : cappedOverallScore p = min (rawOverallScore p) 49 := by
      simp [cappedOverallScore, hf, hd]
    have hle : pythonRound (min (rawOverallScore p) 49) ≤ 49 :=
      pythonRound_le _ 49 (by exact_mod_cast min_le_right (rawOverallScore p) 49)
    rw [hval, hcap]
    exact ⟨by omega, rfl⟩
  · intro hf hd hc
    have hcap : cappedOverallScore p = min (rawOverallScore p) 69 := by
      simp [cappedOverallScore, hf, hd, hc]
    have hle : pythonRound (min (rawOverallScore p) 69) ≤ 69 :=
      pythonRound_le _ 69 (by exact_mod_cast min_le_right (rawOverallScore p) 69)
    rw [hval, hcap]
    exact ⟨by omega, rfl⟩
  · intro hf hd hc
    have hcap : cappedOverallScore p = rawOverallScore p := by
      simp [cappedOverallScore, hf, hd, hc]
    rw [hval, hcap]

/-- C1 witness: a product containing the F-tier ingredient `"bha"` scores
at most 29. -/
theorem c1_witness :
    has_f_grade { ingredients := ["bha".data], brand := [], repr_lower := [] }
      = true ∧
    (calculate_v4_score
      { ingredients := ["bha".data], brand := [], repr_lower := [] }).overall_score
      ≤ 29 :=
  ⟨by decide,
   ((c1_tier_caps
      { ingredients := ["bha".data], brand := [], repr_lower := [] }).1
     (by decide)).1⟩

/-- C6: an ingredient matching no key of any tier table is classified with
grade C, score 60 and the GRAS-unknown (unverified) marker; the same
default is reached by the empty ingredient string.  (`classifyIngredient`
is a total Lean function, so the classification cannot raise.) -/
theorem c6_no_match_default (ing : List Char)
    (h : ∀ k ∈ allTierKeys, isSubstr k (lowerStr ing) = false) :
    classifyIngredient ing =
      { name := ing, grade := "C", color := "#facc15",
        reason := "Unknown - not in safety database. May have bypassed FDA review via GRAS loophole.",
        hazard_score := 60, hidden_truth_key := some "GRAS_unknown" } ∧
    classifyIngredient [] = defaultClassification [] := by
  constructor
  · have h1 : TIER_1_AVOID.find? (fun kv => isSubstr kv.1 (lowerStr ing)) = none := by
      apply List.find?_eq_none.mpr
      intro kv hkv
      have hmem : kv.1 ∈ allTierKeys :=
        List.mem_map_of_mem Prod.fst (by simp [hkv])
      simp [h kv.1 hmem]
    have h2 : TIER_2_LIMIT.find? (fun kv => isSubstr kv.1 (lowerStr ing)) = none := by
      apply List.find?_eq_none.mpr
      intro kv hkv
      have hmem : kv.1 ∈ allTierKeys :=
        List.mem_map_of_mem Prod.fst (by simp [hkv])
      simp [h kv.1 hmem]
    have h3 : TIER_3_CAUTION.find? (fun kv => isSubstr kv.1 (lowerStr ing)) = none := by
      apply List.find?_eq_none.mpr
      intro kv hkv
      have hmem : kv.1 ∈ allTierKeys :=
        List.mem_map_of_mem Prod.fst (by simp [hkv])
      simp [h kv.1 hmem]
    have h4 : TIER_4_SAFE.find? (fun kv => isSubstr kv.1 (lowerStr ing)) = none := by
      apply List.find?_eq_none.mpr
      intro kv hkv
      have hmem : kv.1 ∈ allTierKeys :=
        List.mem_map_of_mem Prod.fst (by simp [hkv])
      simp [h kv.1 hmem]
    simp only [classifyIngredient, h1, h2, h3, h4]
    rfl
  · decide

/-- C6 witness: `"quinoa"` matches no tier key and gets the default. -/
theorem c6_witness :
    classifyIngredient "quinoa".data =
      { name := "quinoa".data, grade := "C", color := "#facc15",
        reason := "Unknown - not in safety database. May have bypassed FDA review via GRAS loophole.",
        hazard_score := 60, hidden_truth_key := some "GRAS_unknown" } :=
  (c6_no_match_default "quinoa".data (by decide)).1

/-! ## Theorems: cache-key normalization -/

/-- C8: the scent variant and the size variant of the Clorox wipes
normalize to the identical cache key. -/
theorem c8_scent_and_size_variants_normalize_identically :
    normalize_cache_key "Clorox".data "Disinfecting Wipes Lemon Fresh".data
      = normalize_cache_key "Clorox".data "Disinfecting Wipes - 12ct".data := by
  decide

/-- C3 counterexample: normalization is not idempotent.  For the inputs
`("b", "a l.emon")` the first pass strips the dot, producing the key
`"b:a lemon"`, and re-normalizing its segments now matches the
`\s+lemon.*` variant pattern, giving `"b:a"`. -/
theorem c3_counterexample_not_idempotent :
    normalize_cache_key
        (brandSegment (normalize_cache_key "b".data "a l.emon".data))
        (nameSegment (normalize_cache_key "b".data "a l.emon".data))
      ≠ normalize_cache_key "b".data "a l.emon".data := by
  decide

/-- Membership form of `lowTame`. -/
theorem lowTame_mem {c : Char} : lowTame c = true ↔ c ∈ lowTameChars := by
  simp [lowTame, List.contains]

/-- Membership form of `tameChar`. -/
theorem tameChar_mem {c : Char} : tameChar c = true ↔ c ∈ tameChars := by
  simp [tameChar, List.contains]

/-- Character facts over the lower-cased tame alphabet, by evaluation. -/
theorem lowTame_char_facts : ∀ c ∈ lowTameChars,
    pyLower c = c ∧ (isSpace c = (c == ' ')) ∧ (isWordChar c || c == ' ') = true ∧
    isDot c = true ∧ (!(isWordChar c || isSpace c)) = false ∧
    (c == '-') = false ∧ (c == ':') = false := by decide

/-- Lower-casing maps the tame alphabet into the lower-cased tame one. -/
theorem lowTame_of_tame : ∀ c ∈ tameChars, lowTame (pyLower c) = true := by decide

theorem lt_pyLower {c : Char} (h : lowTame c = true) : pyLower c = c :=
  (lowTame_char_facts c (lowTame_mem.mp h)).1

theorem lt_space_iff {c : Char} (h : lowTame c = true) : isSpace c = (c == ' ') :=
  (lowTame_char_facts c (lowTame_mem.mp h)).2.1

theorem lt_space_eq {c : Char} (h : lowTame c = true) (hs : isSpace c = true) :
    c = ' ' := by
  have h2 := lt_space_iff h
  rw [hs] at h2
  exact beq_iff_eq.mp h2.symm

theorem lt_dot {c : Char} (h : lowTame c = true) : isDot c = true :=
  (lowTame_char_facts c (lowTame_mem.mp h)).2.2.2.1

theorem lt_punct {c : Char} (h : lowTame c = true) :
    (!(isWordChar c || isSpace c)) = false :=
  (lowTame_char_facts c (lowTame_mem.mp h)).2.2.2.2.1

theorem lt_ne_dash {c : Char} (h : lowTame c = true) : c ≠ '-' := by
  have h2 := (lowTame_char_facts c (lowTame_mem.mp h)).2.2.2.2.2.1
  intro hc
  rw [hc] at h2
  exact absurd h2 (by decide)

theorem lt_ne_colon {c : Char} (h : lowTame c = true) : c ≠ ':' := by
  have h2 := (lowTame_char_facts c (lowTame_mem.mp h)).2.2.2.2.2.2
  intro hc
  rw [hc] at h2
  exact absurd h2 (by decide)

/-- `LowTame` restricts along `⊆`. -/
theorem LowTame.mono {s t : List Char} (hsub : ∀ c ∈ t, c ∈ s)
    (h : LowTame s) : LowTame t :=
  fun c hc => h c (hsub c hc)

theorem lowTame_space : lowTame ' ' = true := by decide

/-- Lower-casing a tame string yields a lower-tame string. -/
theorem LowTame_lowerStr {s : List Char} (h : ∀ c ∈ s, tameChar c = true) :
    LowTame (lowerStr s) := by
  intro c hc
  rcases List.mem_map.mp hc with ⟨d, hd, rfl⟩
  exact lowTame_of_tame d (tameChar_mem.mp (h d hd))

/-- `pyStrip` only removes characters. -/
theorem pyStrip_subset (s : List Char) : ∀ c ∈ pyStrip s, c ∈ s := by
  intro c hc
  unfold pyStrip at hc
  rw [List.mem_reverse] at hc
  have h1 := (List.dropWhile_sublist (l := (s.dropWhile isSpace).reverse)
    (p := isSpace)).mem hc
  rw [List.mem_reverse] at h1
  exact (List.dropWhile_sublist (l := s) (p := isSpace)).mem h1

theorem LowTame_pyStrip {s : List Char} (h : LowTame s) : LowTame (pyStrip s) :=
  h.mono (pyStrip_subset s)

/-- Identity of `pyLower` on lower-tame strings. -/
theorem map_pyLower_id {s : List Char} (h : LowTame s) : s.map pyLower = s := by
  induction s with
  | nil => rfl
  | cons c rest ih =>
      have hc := lt_pyLower (h c (List.mem_cons_self c rest))
      have hr := ih (fun d hd => h d (List.mem_cons_of_mem c hd))
      simp [hc, hr]

/-! ### Generic facts about the matcher -/

theorem countLeading_le (p : Char → Bool) (s : List Char) :
    countLeading p s ≤ s.length := by
  induction s with
  | nil => simp [countLeading]
  | cons c rest ih =>
      by_cases h : p c = true
      · simp only [countLeading, if_pos h, List.length_cons]
        omega
      · simp [countLeading, h]

theorem all_take_countLeading (p : Char → Bool) (s : List Char) :
    ∀ c ∈ s.take (countLeading p s), p c = true := by
  induction s with
  | nil => simp
  | cons c rest ih =>
      intro d hd
      by_cases h : p c = true
      · simp only [countLeading, if_pos h, List.take_succ_cons] at hd
        rcases List.mem_cons.mp hd with rfl | hd'
        · exact h
        · exact ih d hd'
      · simp only [countLeading, if_neg h, List.take_zero] at hd
        exact absurd hd (List.not_mem_nil d)

theorem countLeading_eq_length {p : Char → Bool} {s : List Char}
    (h : ∀ c ∈ s, p c = true) : countLeading p s = s.length := by
  induction s with
  | nil => rfl
  | cons c rest ih =>
      have hc := h c (List.mem_cons_self c rest)
      simp only [countLeading, if_pos hc, List.length_cons]
      rw [ih (fun d hd => h d (List.mem_cons_of_mem c hd))]

theorem le_countLeading_append {p : Char → Bool} {l rest : List Char}
    (h : ∀ c ∈ l, p c = true) : l.length ≤ countLeading p (l ++ rest) := by
  induction l with
  | nil => simp
  | cons c t ih =>
      have hc := h c (List.mem_cons_self c t)
      simp only [List.cons_append, countLeading, if_pos hc, List.length_cons]
      have h2 := ih (fun d hd => h d (List.mem_cons_of_mem c hd))
      simp only [List.append_eq] at h2 ⊢
      omega

theorem head_drop_countLeading (p : Char → Bool) (s : List Char) {c : Char}
    {t : List Char} (h : s.drop (countLeading p s) = c :: t) : p c = false := by
  induction s with
  | nil => simp at h
  | cons d rest ih =>
      by_cases hd : p d = true
      · simp only [countLeading, if_pos hd, List.drop_succ_cons] at h
        exact ih h
      · simp only [countLeading, if_neg hd, List.drop_zero] at h
        injection h with h1 _
        rw [← h1]
        simpa using hd

theorem starSearch_eq_none_iff (f : List Char → Option Nat) (s : List Char)
    (k : Nat) :
    starSearch f s k = none ↔ ∀ j, j ≤ k → f (s.drop j) = none := by
  induction k with
  | zero =>
      constructor
      · intro h j hj
        have hj0 : j = 0 := Nat.le_zero.mp hj
        subst hj0
        simpa [starSearch] using h
      · intro h
        simpa [starSearch] using h 0 (le_refl 0)
  | succ k ih =>
      constructor
      · intro h j hj
        cases hf : f (s.drop (k + 1)) with
        | some m => simp [starSearch, hf] at h
        | none =>
            simp only [starSearch, hf, Option.map_none'] at h
            rcases Nat.le_succ_iff.mp hj with hj2 | rfl
            · exact (ih.mp h) j hj2
            · exact hf
      · intro h
        have h1 : f (s.drop (k + 1)) = none := h (k + 1) (le_refl _)
        simp only [starSearch, h1, Option.map_none']
        exact ih.mpr (fun j hj => h j (hj.trans (Nat.le_succ k)))

theorem starSearch_eq_some {f : List Char → Option Nat} {s : List Char}
    {k r : Nat} (h : starSearch f s k = some r) :
    ∃ j, j ≤ k ∧ ∃ m, f (s.drop j) = some m ∧ r = m + j := by
  induction k with
  | zero =>
      refine ⟨0, le_refl 0, r, ?_, by omega⟩
      simpa [starSearch] using h
  | succ k ih =>
      cases hf : f (s.drop (k + 1)) with
      | some m =>
          simp only [starSearch, hf, Option.map_some'] at h
          injection h with h2
          exact ⟨k + 1, le_refl _, m, hf, by omega⟩
      | none =>
          simp only [starSearch, hf, Option.map_none'] at h
          rcases ih h with ⟨j, hj, m, hm, hr⟩
          exact ⟨j, hj.trans (Nat.le_succ k), m, hm, hr⟩

theorem starSearch_ne_none {f : List Char → Option Nat} {s : List Char}
    {k j : Nat} (hj : j ≤ k) (h : f (s.drop j) ≠ none) :
    starSearch f s k ≠ none :=
  fun hn => h ((starSearch_eq_none_iff f s k).mp hn j hj)

theorem altSearch_eq_none_iff (f : List Char → Option Nat)
    (ls : List (List Char)) (s : List Char) :
    altSearch f ls s = none ↔
      ∀ l ∈ ls, litMatch l s = true → f (s.drop l.length) = none := by
  induction ls with
  | nil => simp [altSearch]
  | cons l ls ih =>
      by_cases hl : litMatch l s = true
      · cases hf : f (s.drop l.length) with
        | some m =>
            simp only [altSearch, hl, if_true, hf, Option.map_some']
            constructor
            · intro h
              exact absurd h (by simp)
            · intro h
              exact absurd (h l (List.mem_cons_self l ls) hl) (by simp [hf])
        | none =>
            simp only [altSearch, hl, if_true, hf, Option.map_none']
            rw [ih]
            constructor
            · intro h l2 hl2 hm
              rcases List.mem_cons.mp hl2 with rfl | hl3
              · exact hf
              · exact h l2 hl3 hm
            · intro h l2 hl2 hm
              exact h l2 (List.mem_cons_of_mem l hl2) hm
      · have hl2 : litMatch l s = false := by simpa using hl
        simp only [altSearch, hl2, Bool.false_eq_true, if_false]
        rw [ih]
        constructor
        · intro h l2 hl3 hm
          rcases List.mem_cons.mp hl3 with rfl | hl4
          · exact absurd hm hl
          · exact h l2 hl4 hm
        · intro h l2 hl3 hm
          exact h l2 (List.mem_cons_of_mem l hl3) hm

theorem altSearch_eq_some {f : List Char → Option Nat} {ls : List (List Char)}
    {s : List Char} {r : Nat} (h : altSearch f ls s = some r) :
    ∃ l, l ∈ ls ∧ litMatch l s = true ∧
      ∃ m, f (s.drop l.length) = some m ∧ r = m + l.length := by
  induction ls with
  | nil => simp [altSearch] at h
  | cons l ls ih =>
      by_cases hl : litMatch l s = true
      · cases hf : f (s.drop l.length) with
        | some m =>
            simp only [altSearch, hl, if_true, hf, Option.map_some'] at h
            injection h with h2
            exact ⟨l, List.mem_cons_self l ls, hl, m, hf, by omega⟩
        | none =>
            simp only [altSearch, hl, if_true, hf, Option.map_none'] at h
            rcases ih h with ⟨l2, hl2, hm, m, hfm, hr⟩
            exact ⟨l2, List.mem_cons_of_mem l hl2, hm, m, hfm, hr⟩
      · have hl2 : litMatch l s = false := by simpa using hl
        simp only [altSearch, hl2, Bool.false_eq_true, if_false] at h
        rcases ih h with ⟨l2, hl3, hm, m, hfm, hr⟩
        exact ⟨l2, List.mem_cons_of_mem l hl3, hm, m, hfm, hr⟩

/-! ### `litMatch` on lower-tame strings -/

/-- `pyLower` is the identity on any string of fixed characters. -/
theorem map_pyLower_id_of {s : List Char} (h : ∀ c ∈ s, pyLower c = c) :
    s.map pyLower = s := by
  induction s with
  | nil => rfl
  | cons c rest ih =>
      simp [h c (List.mem_cons_self c rest),
        ih (fun d hd => h d (List.mem_cons_of_mem c hd))]

theorem litMatch_iff_take {l s : List Char} (hid : ∀ c ∈ s, pyLower c = c) :
    litMatch l s = true ↔ s.take l.length = l := by
  unfold litMatch
  rw [map_pyLower_id_of (fun c hc => hid c (List.take_subset _ _ hc))]
  exact beq_iff_eq

/-- On a lower-tame string, a literal hit means the literal sits there. -/
theorem litMatch_decompose {l s : List Char} (hid : ∀ c ∈ s, pyLower c = c)
    (h : litMatch l s = true) : s = l ++ s.drop l.length := by
  have ht := (litMatch_iff_take hid).mp h
  conv_lhs => rw [← List.take_append_drop l.length s]
  rw [ht]

/-- A lower-case literal matches itself followed by anything. -/
theorem litMatch_self_append {l v : List Char} (hid : ∀ c ∈ l, pyLower c = c) :
    litMatch l (l ++ v) = true := by
  unfold litMatch
  rw [List.take_left, map_pyLower_id_of hid]
  exact beq_self_eq_true l

/-! ### Unfolding equations for `pySub` -/

theorem pySubAux_fuel_irrel (pat : List RItem) (rep : List Char) :
    ∀ fuel₁ fuel₂ s, s.length ≤ fuel₁ → s.length ≤ fuel₂ →
      pySubAux pat rep fuel₁ s = pySubAux pat rep fuel₂ s := by
  intro fuel₁
  induction fuel₁ with
  | zero =>
      intro fuel₂ s h1 _
      have hs : s = [] := List.length_eq_zero.mp (Nat.le_zero.mp h1)
      subst hs
      cases fuel₂ <;> rfl
  | succ f ih =>
      intro fuel₂ s h1 h2
      cases s with
      | nil => cases fuel₂ <;> rfl
      | cons c rest =>
          cases fuel₂ with
          | zero => simp at h2
          | succ f₂ =>
              simp only [pySubAux]
              cases hm : matchLen pat (c :: rest) with
              | none =>
                  show c :: pySubAux pat rep f rest
                    = c :: pySubAux pat rep f₂ rest
                  rw [ih f₂ rest (by simpa using h1) (by simpa using h2)]
              | some k =>
                  cases k with
                  | zero =>
                      show rep ++ c :: pySubAux pat rep f rest
                        = rep ++ c :: pySubAux pat rep f₂ rest
                      rw [ih f₂ rest (by simpa using h1) (by simpa using h2)]
                  | succ k2 =>
                      show rep ++ pySubAux pat rep f (rest.drop k2)
                        = rep ++ pySubAux pat rep f₂ (rest.drop k2)
                      have hd : (rest.drop k2).length ≤ rest.length := by
                        simp [List.length_drop]
                      rw [ih f₂ (rest.drop k2)
                        (hd.trans (by simpa using h1))
                        (hd.trans (by simpa using h2))]

theorem pySub_cons_none {pat : List RItem} {rep : List Char} {c : Char}
    {rest : List Char} (h : matchLen pat (c :: rest) = none) :
    pySub pat rep (c :: rest) = c :: pySub pat rep rest := by
  unfold pySub
  simp only [List.length_cons, pySubAux, h]

theorem pySub_cons_zero {pat : List RItem} {rep : List Char} {c : Char}
    {rest : List Char} (h : matchLen pat (c :: rest) = some 0) :
    pySub pat rep (c :: rest) = rep ++ c :: pySub pat rep rest := by
  unfold pySub
  simp only [List.length_cons, pySubAux, h]

theorem pySub_cons_succ {pat : List RItem} {rep : List Char} {c : Char}
    {rest : List Char} {k : Nat} (h : matchLen pat (c :: rest) = some (k + 1)) :
    pySub pat rep (c :: rest) = rep ++ pySub pat rep (rest.drop k) := by
  unfold pySub
  simp only [List.length_cons, pySubAux, h]
  congr 1
  exact pySubAux_fuel_irrel pat rep rest.length (rest.drop k).length (rest.drop k)
    (by simp [List.length_drop]) (le_refl _)

/-- Characters of a substitution result come from the replacement or the
input. -/
theorem pySub_subset (pat : List RItem) (rep : List Char) (s : List Char) :
    ∀ c ∈ pySub pat rep s, c ∈ rep ∨ c ∈ s := by
  generalize hn : s.length = n
  induction n using Nat.strong_induction_on generalizing s with
  | _ n ih =>
      cases s with
      | nil =>
          intro c hc
          unfold pySub pySubAux at hc
          revert hc
          cases matchLen pat [] with
          | some m => exact fun hc => Or.inl hc
          | none => intro hc; exact absurd hc (List.not_mem_nil c)
      | cons d rest =>
          subst hn
          intro c hc
          cases hm : matchLen pat (d :: rest) with
          | none =>
              rw [pySub_cons_none hm] at hc
              rcases List.mem_cons.mp hc with rfl | hc2
              · exact Or.inr (List.mem_cons_self c rest)
              · rcases ih rest.length (by simp) rest rfl c hc2 with h | h
                · exact Or.inl h
                · exact Or.inr (List.mem_cons_of_mem d h)
          | some k =>
              cases k with
              | zero =>
                  rw [pySub_cons_zero hm] at hc
                  rcases List.mem_append.mp hc with h | h
                  · exact Or.inl h
                  · rcases List.mem_cons.mp h with rfl | hc2
                    · exact Or.inr (List.mem_cons_self c rest)
                    · rcases ih rest.length (by simp) rest rfl c hc2 with h2 | h2
                      · exact Or.inl h2
                      · exact Or.inr (List.mem_cons_of_mem d h2)
              | succ k2 =>
                  rw [pySub_cons_succ hm] at hc
                  rcases List.mem_append.mp hc with h | h
                  · exact Or.inl h
                  · rcases ih (rest.drop k2).length
                        (by simp [List.length_drop]; omega) (rest.drop k2) rfl
                        c h with h2 | h2
                    · exact Or.inl h2
                    · exact Or.inr
                        (List.mem_cons_of_mem d (List.drop_subset k2 rest h2))

/-- A pattern that matches nowhere substitutes nothing. -/
theorem pySub_id_of_no_match {pat : List RItem} {rep : List Char}
    {s : List Char} (h : ∀ i, matchLen pat (s.drop i) = none) :
    pySub pat rep s = s := by
  generalize hn : s.length = n
  induction n using Nat.strong_induction_on generalizing s with
  | _ n ih =>
      cases s with
      | nil =>
          have h0 : matchLen pat [] = none := by simpa using h 0
          simp [pySub, pySubAux, h0]
      | cons d rest =>
          subst hn
          rw [pySub_cons_none (by simpa using h 0)]
          rw [ih rest.length (by simp)
            (fun i => by simpa using h (i + 1)) rfl]

/-! ### The whitespace-collapse substitution -/

theorem matchLen_nil_items (s : List Char) : matchLen [] s = some 0 := rfl

theorem starSearch_nil_items (s : List Char) (k : Nat) :
    starSearch (matchLen []) s k = some k := by
  cases k with
  | zero => rfl
  | succ k2 => simp [starSearch, matchLen_nil_items, Nat.zero_add]

theorem starSearch_const_zero (s : List Char) (k : Nat) :
    starSearch (fun _ => some 0) s k = some k := by
  cases k with
  | zero => rfl
  | succ k2 => simp [starSearch, Nat.zero_add]

theorem matchLen_wsRun_cons_space {c : Char} {rest : List Char}
    (hc : isSpace c = true) :
    matchLen P_wsRun (c :: rest) = some (countLeading isSpace rest + 1) := by
  simp [P_wsRun, matchLen, hc, starSearch_nil_items, starSearch_const_zero,
    Nat.add_comm]

theorem matchLen_wsRun_cons_nonspace {c : Char} {rest : List Char}
    (hc : isSpace c = false) : matchLen P_wsRun (c :: rest) = none := by
  simp [P_wsRun, matchLen, hc]

theorem collapse_cons_space {c : Char} {rest : List Char}
    (hc : isSpace c = true) :
    pySub P_wsRun [' '] (c :: rest)
      = ' ' :: pySub P_wsRun [' '] (rest.drop (countLeading isSpace rest)) := by
  rw [pySub_cons_succ (matchLen_wsRun_cons_space hc)]
  rfl

theorem collapse_cons_nonspace {c : Char} {rest : List Char}
    (hc : isSpace c = false) :
    pySub P_wsRun [' '] (c :: rest) = c :: pySub P_wsRun [' '] rest :=
  pySub_cons_none (matchLen_wsRun_cons_nonspace hc)

theorem Collapsed.tail {c : Char} {rest : List Char}
    (h : Collapsed (c :: rest)) : Collapsed rest := by
  cases rest with
  | nil => trivial
  | cons d t => exact h.2

theorem collapsed_cons_space {X : List Char} (h : Collapsed X)
    (hhead : ∀ e t, X = e :: t → isSpace e = false) : Collapsed (' ' :: X) := by
  cases X with
  | nil => exact fun _ => rfl
  | cons e t => exact ⟨fun _ => ⟨rfl, hhead e t rfl⟩, h⟩

theorem collapsed_cons_nonspace {c : Char} {X : List Char}
    (hc : isSpace c = false) (h : Collapsed X) : Collapsed (c :: X) := by
  cases X with
  | nil => exact fun hs => absurd hs (by simp [hc])
  | cons e t => exact ⟨fun hs => absurd hs (by simp [hc]), h⟩

/-- The collapse substitution produces a collapsed string. -/
theorem collapse_collapsed (s : List Char) :
    Collapsed (pySub P_wsRun [' '] s) := by
  generalize hn : s.length = n
  induction n using Nat.strong_induction_on generalizing s with
  | _ n ih =>
      cases s with
      | nil => trivial
      | cons c rest =>
          subst hn
          by_cases hc : isSpace c = true
          · rw [collapse_cons_space hc]
            set r2 := rest.drop (countLeading isSpace rest) with hr2
            have hcol : Collapsed (pySub P_wsRun [' '] r2) :=
              ih r2.length (by simp [hr2, List.length_drop]; omega) r2 rfl
            apply collapsed_cons_space hcol
            intro e t het
            cases hr : r2 with
            | nil =>
                rw [hr] at het
                have hnil : pySub P_wsRun [' '] ([] : List Char) = [] := rfl
                rw [hnil] at het
                exact absurd het (by simp)
            | cons e2 t2 =>
                have he2 : isSpace e2 = false :=
                  head_drop_countLeading isSpace rest (hr2 ▸ hr)
                rw [hr] at het
                rw [collapse_cons_nonspace he2] at het
                injection het with h1 _
                rw [← h1]
                exact he2
          · have hc2 : isSpace c = false := by simpa using hc
            rw [collapse_cons_nonspace hc2]
            exact collapsed_cons_nonspace hc2
              (ih rest.length (by simp) rest rfl)

/-- Collapse is the identity on collapsed strings. -/
theorem collapse_eq_self_of_collapsed {s : List Char} (h : Collapsed s) :
    pySub P_wsRun [' '] s = s := by
  induction s with
  | nil => rfl
  | cons c rest ih =>
      by_cases hc : isSpace c = true
      · have hcsp : c = ' ' := by
          cases rest with
          | nil => exact h hc
          | cons d t => exact (h.1 hc).1
        have hcl : countLeading isSpace rest = 0 := by
          cases rest with
          | nil => rfl
          | cons d t =>
              have hd : isSpace d = false := (h.1 hc).2
              simp [countLeading, hd]
        rw [collapse_cons_space hc, hcl, List.drop_zero, ih h.tail, hcsp]
      · have hc2 : isSpace c = false := by simpa using hc
        rw [collapse_cons_nonspace hc2, ih h.tail]

/-- Collapsedness survives removing a prefix. -/
theorem Collapsed.of_append_left {a t : List Char} (h : Collapsed (a ++ t)) :
    Collapsed t := by
  induction a with
  | nil => exact h
  | cons c a2 ih => exact ih (Collapsed.tail h)

/-- Collapsedness survives removing a suffix. -/
theorem Collapsed.of_append_right {t b : List Char} (h : Collapsed (t ++ b)) :
    Collapsed t := by
  induction t with
  | nil => trivial
  | cons c t2 ih =>
      cases t2 with
      | nil =>
          intro hs
          cases b with
          | nil => exact h hs
          | cons d u => exact (h.1 hs).1
      | cons d t3 =>
          exact ⟨h.1, ih h.2⟩

/-! ### `pyStrip` structure -/

theorem dropWhile_dropWhile (p : Char → Bool) (l : List Char) :
    (l.dropWhile p).dropWhile p = l.dropWhile p := by
  induction l with
  | nil => rfl
  | cons c rest ih =>
      by_cases hc : p c = true
      · simpa [List.dropWhile_cons, hc] using ih
      · simp [List.dropWhile_cons, hc]

theorem dropWhile_head_false {p : Char → Bool} {l : List Char} {c : Char}
    {t : List Char} (h : l.dropWhile p = c :: t) : p c = false := by
  induction l with
  | nil => simp at h
  | cons d rest ih =>
      by_cases hd : p d = true
      · rw [List.dropWhile_cons, if_pos hd] at h
        exact ih h
      · rw [List.dropWhile_cons, if_neg hd] at h
        injection h with h1 _
        rw [← h1]
        simpa using hd

/-- Every string is a whitespace prefix, its strip, and a whitespace
suffix. -/
theorem pyStrip_decomposition (s : List Char) :
    ∃ a b, s = a ++ pyStrip s ++ b ∧
      (∀ c ∈ a, isSpace c = true) ∧ (∀ c ∈ b, isSpace c = true) := by
  unfold pyStrip
  set s1 := s.dropWhile isSpace with hs1
  set y2 := s1.reverse.dropWhile isSpace with hy2
  refine ⟨s.takeWhile isSpace, (s1.reverse.takeWhile isSpace).reverse, ?_, ?_, ?_⟩
  · have h1 : s = s.takeWhile isSpace ++ s1 := by
      rw [hs1, List.takeWhile_append_dropWhile]
    have h2 : s1.reverse = s1.reverse.takeWhile isSpace ++ y2 := by
      rw [hy2, List.takeWhile_append_dropWhile]
    have h3 : s1 = y2.reverse ++ (s1.reverse.takeWhile isSpace).reverse := by
      have := congrArg List.reverse h2
      simpa [List.reverse_append] using this
    rw [List.append_assoc]
    rw [← h3]
    exact h1
  · intro c hc
    exact List.mem_takeWhile_imp hc
  · intro c hc
    rw [List.mem_reverse] at hc
    exact List.mem_takeWhile_imp hc

/-- A stripped string has no leading whitespace. -/
theorem dropWhile_pyStrip (s : List Char) :
    (pyStrip s).dropWhile isSpace = pyStrip s := by
  cases h : pyStrip s with
  | nil => rfl
  | cons c t =>
      have h2 : (s.dropWhile isSpace).reverse
          = (s.dropWhile isSpace).reverse.takeWhile isSpace
            ++ (s.dropWhile isSpace).reverse.dropWhile isSpace :=
        (List.takeWhile_append_dropWhile isSpace (s.dropWhile isSpace).reverse).symm
      have h3 : s.dropWhile isSpace
          = pyStrip s ++ ((s.dropWhile isSpace).reverse.takeWhile isSpace).reverse := by
        have h4 := congrArg List.reverse h2
        rw [List.reverse_reverse, List.reverse_append] at h4
        exact h4
      rw [h] at h3
      have h5 : s.dropWhile isSpace
          = c :: (t ++ ((s.dropWhile isSpace).reverse.takeWhile isSpace).reverse) := by
        exact h3
      have hc : isSpace c = false := dropWhile_head_false h5
      rw [List.dropWhile_cons, if_neg (by simp [hc])]

/-- `pyStrip` is idempotent. -/
theorem pyStrip_idem (s : List Char) : pyStrip (pyStrip s) = pyStrip s := by
  have h1 : (pyStrip s).reverse = (s.dropWhile isSpace).reverse.dropWhile isSpace := by
    unfold pyStrip
    rw [List.reverse_reverse]
  show (((pyStrip s).dropWhile isSpace).reverse.dropWhile isSpace).reverse = pyStrip s
  rw [dropWhile_pyStrip, h1, dropWhile_dropWhile]
  rfl

/-! ### Variant patterns match to the end of a tame line -/

theorem matchLen_dotStar (u : List Char) :
    matchLen [RItem.cls isDot .star] u = some (countLeading isDot u) := by
  simp [matchLen, starSearch_nil_items, starSearch_const_zero]

theorem litMatch_length_le {l u : List Char} (h : litMatch l u = true) :
    l.length ≤ u.length := by
  unfold litMatch at h
  have h2 := congrArg List.length (beq_iff_eq.mp h)
  simp only [List.length_map, List.length_take] at h2
  omega

theorem full_base_dotStar :
    ∀ u m, LowTame u → matchLen [RItem.cls isDot .star] u = some m →
      m = u.length := by
  intro u m hlt h
  rw [matchLen_dotStar] at h
  injection h with h2
  rw [← h2, countLeading_eq_length (fun c hc => lt_dot (hlt c hc))]

theorem full_peel_one {p : Char → Bool} {rest : List RItem}
    (hrest : ∀ u m, LowTame u → matchLen rest u = some m → m = u.length) :
    ∀ u m, LowTame u → matchLen (RItem.cls p .one :: rest) u = some m →
      m = u.length := by
  intro u m hlt h
  cases u with
  | nil => simp [matchLen] at h
  | cons c u2 =>
      simp only [matchLen] at h
      by_cases hc : p c = true
      · rw [if_pos hc] at h
        cases hm : matchLen rest u2 with
        | none => rw [hm] at h; simp at h
        | some m2 =>
            rw [hm] at h
            simp only [Option.map_some'] at h
            injection h with h2
            have h3 := hrest u2 m2
              (fun d hd => hlt d (List.mem_cons_of_mem c hd)) hm
            simp only [List.length_cons]
            omega
      · rw [if_neg hc] at h
        simp at h

theorem full_peel_star {p : Char → Bool} {rest : List RItem}
    (hrest : ∀ u m, LowTame u → matchLen rest u = some m → m = u.length) :
    ∀ u m, LowTame u → matchLen (RItem.cls p .star :: rest) u = some m →
      m = u.length := by
  intro u m hlt h
  simp only [matchLen] at h
  rcases starSearch_eq_some h with ⟨j, hj, m2, hm2, rfl⟩
  have hjl : j ≤ u.length := hj.trans (countLeading_le p u)
  have h2 := hrest (u.drop j) m2 (hlt.mono (List.drop_subset j u)) hm2
  rw [List.length_drop] at h2
  omega

theorem full_peel_lit {w : List Char} {rest : List RItem}
    (hrest : ∀ u m, LowTame u → matchLen rest u = some m → m = u.length) :
    ∀ u m, LowTame u → matchLen (RItem.lit w :: rest) u = some m →
      m = u.length := by
  intro u m hlt h
  simp only [matchLen] at h
  by_cases hw : litMatch w u = true
  · rw [if_pos hw] at h
    cases hm : matchLen rest (u.drop w.length) with
    | none => rw [hm] at h; simp at h
    | some m2 =>
        rw [hm] at h
        simp only [Option.map_some'] at h
        injection h with h2
        have hwl := litMatch_length_le hw
        have h3 := hrest (u.drop w.length) m2
          (hlt.mono (List.drop_subset w.length u)) hm
        rw [List.length_drop] at h3
        omega
  · rw [if_neg hw] at h
    simp at h

theorem full_peel_alts {ls : List (List Char)} {rest : List RItem}
    (hrest : ∀ u m, LowTame u → matchLen rest u = some m → m = u.length) :
    ∀ u m, LowTame u → matchLen (RItem.alts ls :: rest) u = some m →
      m = u.length := by
  intro u m hlt h
  simp only [matchLen] at h
  rcases altSearch_eq_some h with ⟨l, _, hlit, m2, hm2, rfl⟩
  have hll := litMatch_length_le hlit
  have h2 := hrest (u.drop l.length) m2
    (hlt.mono (List.drop_subset l.length u)) hm2
  rw [List.length_drop] at h2
  omega

/-- Any hit of a keyword pattern on a lower-tame string runs to its end. -/
theorem matchLen_kw_full {w : List Char} :
    ∀ t r, LowTame t → matchLen (kwPattern w) t = some r → r = t.length := by
  intro t r hlt h
  exact full_peel_one (full_peel_star (full_peel_lit full_base_dotStar)) t r hlt
    (by simpa [kwPattern] using h)

/-- Any hit of the size pattern on a lower-tame string runs to its end. -/
theorem matchLen_size_full :
    ∀ t r, LowTame t → matchLen P_size t = some r → r = t.length := by
  intro t r hlt h
  exact full_peel_one (full_peel_star (full_peel_one (full_peel_star
    (full_peel_star (full_peel_alts full_base_dotStar))))) t r hlt
    (by simpa [P_size] using h)

theorem matchLen_kw_nil {w : List Char} : matchLen (kwPattern w) [] = none := by
  simp [kwPattern, matchLen]

theorem matchLen_size_nil : matchLen P_size [] = none := by
  simp [P_size, matchLen]

/-- The dash pattern requires a dash, which lower-tame strings lack. -/
theorem matchLen_dash_none {t : List Char} (hlt : LowTame t) :
    matchLen P_dash t = none := by
  have hsub : ∀ j, matchLen
      [RItem.lit ['-'], RItem.cls isSpace .star, RItem.cls isDot .star,
        RItem.dollar] (t.drop j) = none := by
    intro j
    simp only [matchLen]
    have hlit : litMatch ['-'] (t.drop j) = false := by
      cases ht : t.drop j with
      | nil => rfl
      | cons c u =>
          have hc : lowTame c = true := hlt c (List.drop_subset j t (by
            rw [ht]; exact List.mem_cons_self c u))
          unfold litMatch
          simp only [List.length_cons, List.length_nil, Nat.zero_add,
            List.take_succ_cons, List.take_zero, List.map_cons, List.map_nil]
          have hcl : pyLower c = c := lt_pyLower hc
          rw [hcl]
          have hne : c ≠ '-' := lt_ne_dash hc
          simp [hne]
    rw [hlit]
    simp
  show starSearch _ t (countLeading isSpace t) = none
  rw [starSearch_eq_none_iff]
  intro j _
  exact hsub j

/-! ### From occurrences to matcher hits -/

theorem block_last_space {B : List Char} (hne : B ≠ [])
    (hB : ∀ c ∈ B, c = ' ') : ∃ B2, B = B2 ++ [' '] := by
  refine ⟨B.dropLast, ?_⟩
  conv_lhs => rw [← List.dropLast_append_getLast hne]
  rw [hB (B.getLast hne) (List.getLast_mem hne)]

theorem sizeAlts_facts : ∀ a ∈ sizeAlts, a ≠ [] ∧
    ∀ c ∈ a, pyLower c = c ∧ isSpace c = false := by decide

theorem matchLen_clsOne_cons {p : Char → Bool} {rest : List RItem} {c : Char}
    {s2 : List Char} :
    matchLen (RItem.cls p .one :: rest) (c :: s2)
      = if p c = true then (matchLen rest s2).map (· + 1) else none := rfl

theorem matchLen_clsStar {p : Char → Bool} {rest : List RItem} {s : List Char} :
    matchLen (RItem.cls p .star :: rest) s
      = starSearch (matchLen rest) s (countLeading p s) := rfl

theorem matchLen_lit_eq {l : List Char} {rest : List RItem} {s : List Char} :
    matchLen (RItem.lit l :: rest) s
      = if litMatch l s then (matchLen rest (s.drop l.length)).map (· + l.length)
        else none := rfl

theorem matchLen_alts_eq {ls : List (List Char)} {rest : List RItem}
    {s : List Char} :
    matchLen (RItem.alts ls :: rest) s = altSearch (matchLen rest) ls s := rfl

/-- At the position of a space-keyword occurrence, the keyword pattern
matches. -/
theorem SpKw_position {w s u v : List Char} (hw : KwOk w)
    (hs : s = u ++ ' ' :: (w ++ v)) :
    matchLen (kwPattern w) (s.drop u.length) ≠ none := by
  have hdrop : s.drop u.length = ' ' :: (w ++ v) := by
    rw [hs, List.drop_left]
  rw [hdrop]
  rw [show kwPattern w = RItem.cls isSpace .one :: (RItem.cls isSpace .star ::
    (RItem.lit w :: [RItem.cls isDot .star])) from rfl]
  rw [matchLen_clsOne_cons, if_pos (by decide)]
  simp only [ne_eq, Option.map_eq_none']
  rw [matchLen_clsStar]
  apply starSearch_ne_none (Nat.zero_le _)
  rw [List.drop_zero, matchLen_lit_eq,
    if_pos (litMatch_self_append (fun c hc => (hw.2 c hc).1)),
    List.drop_left, matchLen_dotStar]
  simp

/-- At the position of a space-digits-unit occurrence, the size pattern
matches. -/
theorem SpSize_position {s u d sp a v : List Char}
    (hs : s = u ++ ' ' :: (d ++ (sp ++ (a ++ v)))) (hd : d ≠ [])
    (hdig : ∀ c ∈ d, isDigit c = true) (hsp : ∀ c ∈ sp, c = ' ')
    (ha : a ∈ sizeAlts) :
    matchLen P_size (s.drop u.length) ≠ none := by
  have hdrop : s.drop u.length = ' ' :: (d ++ (sp ++ (a ++ v))) := by
    rw [hs, List.drop_left]
  rw [hdrop]
  obtain ⟨e, d2, rfl⟩ : ∃ e d2, d = e :: d2 := by
    cases d with
    | nil => exact absurd rfl hd
    | cons e d2 => exact ⟨e, d2, rfl⟩
  rw [show P_size = RItem.cls isSpace .one :: (RItem.cls isSpace .star ::
    (RItem.cls isDigit .one :: (RItem.cls isDigit .star ::
      (RItem.cls isSpace .star :: (RItem.alts sizeAlts ::
        [RItem.cls isDot .star]))))) from rfl]
  rw [matchLen_clsOne_cons, if_pos (by decide)]
  simp only [ne_eq, Option.map_eq_none']
  rw [matchLen_clsStar]
  apply starSearch_ne_none (Nat.zero_le _)
  rw [List.drop_zero]
  rw [show (e :: d2) ++ (sp ++ (a ++ v)) = e :: (d2 ++ (sp ++ (a ++ v)))
    from rfl]
  rw [matchLen_clsOne_cons, if_pos (hdig e (List.mem_cons_self e d2))]
  simp only [ne_eq, Option.map_eq_none']
  rw [matchLen_clsStar]
  apply starSearch_ne_none
    (le_countLeading_append (fun c hc => hdig c (List.mem_cons_of_mem e hc)))
  rw [List.drop_left, matchLen_clsStar]
  apply starSearch_ne_none
    (le_countLeading_append (fun c hc => by rw [hsp c hc]; decide))
  rw [List.drop_left, matchLen_alts_eq]
  intro hnone
  have hiff := (altSearch_eq_none_iff (matchLen [RItem.cls isDot .star])
    sizeAlts (a ++ v)).mp hnone
  have hfact := sizeAlts_facts a ha
  have hlit : litMatch a (a ++ v) = true :=
    litMatch_self_append (fun c hc => (hfact.2 c hc).1)
  have h2 := hiff a ha hlit
  rw [matchLen_dotStar] at h2
  exact absurd h2 (by simp)

/-! ### From matcher hits to occurrences -/

theorem matchLen_clsOne_nil {p : Char → Bool} {rest : List RItem} :
    matchLen (RItem.cls p .one :: rest) [] = none := rfl

theorem all_take_le {p : Char → Bool} {l : List Char} {j : Nat}
    (hj : j ≤ countLeading p l) : ∀ c ∈ l.take j, p c = true := by
  intro c hc
  have h2 : l.take j = (l.take (countLeading p l)).take j := by
    rw [List.take_take, min_eq_left hj]
  rw [h2] at hc
  exact all_take_countLeading p l c (List.take_subset _ _ hc)

/-- A keyword-pattern hit inside a lower-tame string is a space-keyword
occurrence. -/
theorem matchLen_kw_imp_SpKw {w s : List Char} {i : Nat} (hlt : LowTame s)
    (h : matchLen (kwPattern w) (s.drop i) ≠ none) : SpKw w s := by
  have hltt : LowTame (s.drop i) := hlt.mono (List.drop_subset i s)
  cases htv : s.drop i with
  | nil =>
      rw [htv, matchLen_kw_nil] at h
      exact absurd rfl h
  | cons c t1 =>
      rw [htv] at h hltt
      rw [show kwPattern w = RItem.cls isSpace .one :: (RItem.cls isSpace .star ::
        (RItem.lit w :: [RItem.cls isDot .star])) from rfl] at h
      rw [matchLen_clsOne_cons] at h
      by_cases hc : isSpace c = true
      case neg => rw [if_neg hc] at h; exact absurd rfl h
      rw [if_pos hc] at h
      simp only [ne_eq, Option.map_eq_none'] at h
      rw [matchLen_clsStar] at h
      cases hss : starSearch (matchLen (RItem.lit w :: [RItem.cls isDot .star]))
          t1 (countLeading isSpace t1) with
      | none => exact absurd hss h
      | some r =>
          rcases starSearch_eq_some hss with ⟨j, hj, m, hm, _⟩
          rw [matchLen_lit_eq] at hm
          by_cases hlit : litMatch w (t1.drop j) = true
          case neg => rw [if_neg hlit] at hm; exact absurd hm (by simp)
          rw [if_pos hlit] at hm
          have hlt1 : LowTame t1 := fun d hd => hltt d (List.mem_cons_of_mem c hd)
          have hdec := litMatch_decompose
            (fun d hd => lt_pyLower (hlt1 d (List.drop_subset j t1 hd))) hlit
          have hcsp : c = ' ' := lt_space_eq (hltt c (List.mem_cons_self c t1)) hc
          have hB : ∀ d ∈ c :: t1.take j, d = ' ' := by
            intro d hd
            rcases List.mem_cons.mp hd with rfl | hd2
            · exact hcsp
            · exact lt_space_eq (hlt1 d (List.take_subset j t1 hd2))
                (all_take_le hj d hd2)
          rcases block_last_space (by simp) hB with ⟨B2, hB2⟩
          refine ⟨s.take i ++ B2, (t1.drop j).drop w.length, ?_⟩
          conv_lhs => rw [← List.take_append_drop i s, htv]
          have ht1 : c :: t1
              = (c :: t1.take j) ++ (w ++ (t1.drop j).drop w.length) := by
            conv_lhs =>
              rw [show t1 = t1.take j ++ t1.drop j
                from (List.take_append_drop j t1).symm]
              rw [hdec]
            rfl
          rw [ht1, hB2]
          simp [List.append_assoc]

/-- A size-pattern hit inside a lower-tame string is a space-digits-unit
occurrence. -/
theorem matchLen_size_imp_SpSize {s : List Char} {i : Nat} (hlt : LowTame s)
    (h : matchLen P_size (s.drop i) ≠ none) : SpSize s := by
  have hltt : LowTame (s.drop i) := hlt.mono (List.drop_subset i s)
  cases htv : s.drop i with
  | nil =>
      rw [htv, matchLen_size_nil] at h
      exact absurd rfl h
  | cons c t1 =>
      rw [htv] at h hltt
      rw [show P_size = RItem.cls isSpace .one :: (RItem.cls isSpace .star ::
        (RItem.cls isDigit .one :: (RItem.cls isDigit .star ::
          (RItem.cls isSpace .star :: (RItem.alts sizeAlts ::
            [RItem.cls isDot .star]))))) from rfl] at h
      rw [matchLen_clsOne_cons] at h
      by_cases hc : isSpace c = true
      case neg => rw [if_neg hc] at h; exact absurd rfl h
      rw [if_pos hc] at h
      simp only [ne_eq, Option.map_eq_none'] at h
      rw [matchLen_clsStar] at h
      cases hss : starSearch (matchLen (RItem.cls isDigit .one ::
          (RItem.cls isDigit .star :: (RItem.cls isSpace .star ::
            (RItem.alts sizeAlts :: [RItem.cls isDot .star])))))
          t1 (countLeading isSpace t1) with
      | none => exact absurd hss h
      | some r =>
          rcases starSearch_eq_some hss with ⟨j1, hj1, m1, hm1, _⟩
          have hlt1 : LowTame t1 := fun d hd => hltt d (List.mem_cons_of_mem c hd)
          cases hu1 : t1.drop j1 with
          | nil => rw [hu1, matchLen_clsOne_nil] at hm1; exact absurd hm1 (by simp)
          | cons e u2 =>
              rw [hu1, matchLen_clsOne_cons] at hm1
              by_cases he : isDigit e = true
              case neg => rw [if_neg he] at hm1; exact absurd hm1 (by simp)
              rw [if_pos he] at hm1
              have hltu1 : LowTame (e :: u2) := by
                rw [← hu1]
                exact hlt1.mono (List.drop_subset j1 t1)
              have hltu2 : LowTame u2 :=
                fun d hd => hltu1 d (List.mem_cons_of_mem e hd)
              cases hm1v : matchLen (RItem.cls isDigit .star ::
                  (RItem.cls isSpace .star :: (RItem.alts sizeAlts ::
                    [RItem.cls isDot .star]))) u2 with
              | none => rw [hm1v] at hm1; exact absurd hm1 (by simp)
              | some m2 =>
                  rw [matchLen_clsStar] at hm1v
                  rcases starSearch_eq_some hm1v with ⟨j2, hj2, m3, hm3, _⟩
                  rw [matchLen_clsStar] at hm3
                  rcases starSearch_eq_some hm3 with ⟨j3, hj3, m4, hm4, _⟩
                  rw [matchLen_alts_eq] at hm4
                  rcases altSearch_eq_some hm4 with ⟨a, ha, halit, m5, _, _⟩
                  set u3 := u2.drop j2 with hu3
                  set u4 := u3.drop j3 with hu4
                  have hltu3 : LowTame u3 := hltu2.mono (List.drop_subset j2 u2)
                  have hltu4 : LowTame u4 := hltu3.mono (List.drop_subset j3 u3)
                  have hadec := litMatch_decompose
                    (fun d hd => lt_pyLower (hltu4 d hd)) halit
                  have hcsp : c = ' ' :=
                    lt_space_eq (hltt c (List.mem_cons_self c t1)) hc
                  have hB : ∀ d ∈ c :: t1.take j1, d = ' ' := by
                    intro d hd
                    rcases List.mem_cons.mp hd with rfl | hd2
                    · exact hcsp
                    · exact lt_space_eq (hlt1 d (List.take_subset j1 t1 hd2))
                        (all_take_le hj1 d hd2)
                  rcases block_last_space (by simp) hB with ⟨B2, hB2⟩
                  refine ⟨s.take i ++ B2, e :: u2.take j2, u3.take j3, a,
                    u4.drop a.length, ?_, by simp, ?_, ?_, ha⟩
                  · conv_lhs => rw [← List.take_append_drop i s, htv]
                    have ht1 : c :: t1 = (c :: t1.take j1) ++
                        ((e :: u2.take j2) ++ (u3.take j3 ++ (a ++ u4.drop a.length))) := by
                      conv_lhs =>
                        rw [show t1 = t1.take j1 ++ t1.drop j1
                          from (List.take_append_drop j1 t1).symm]
                        rw [hu1]
                        rw [show u2 = u2.take j2 ++ u3
                          from (List.take_append_drop j2 u2).symm]
                        rw [show u3 = u3.take j3 ++ u4
                          from (List.take_append_drop j3 u3).symm]
                        rw [hadec]
                      simp [List.append_assoc]
                    rw [ht1, hB2]
                    simp [List.append_assoc]
                  · intro d hd
                    rcases List.mem_cons.mp hd with rfl | hd2
                    · exact he
                    · exact all_take_le hj2 d hd2
                  · intro d hd
                    exact lt_space_eq (hltu3 d (List.take_subset j3 u3 hd))
                      (all_take_le hj3 d hd)

/-! ### Occurrences transfer along prefixes, padding, collapse and strip -/

theorem SpKw_of_take {w s : List Char} {p2 : Nat}
    (h : SpKw w (s.take p2)) : SpKw w s := by
  rcases h with ⟨u, v, heq⟩
  refine ⟨u, v ++ s.drop p2, ?_⟩
  conv_lhs => rw [← List.take_append_drop p2 s, heq]
  simp [List.append_assoc]

theorem SpSize_of_take {s : List Char} {p2 : Nat}
    (h : SpSize (s.take p2)) : SpSize s := by
  rcases h with ⟨u, d, sp, a, v, heq, hd, hdig, hsp, ha⟩
  refine ⟨u, d, sp, a, v ++ s.drop p2, ?_, hd, hdig, hsp, ha⟩
  conv_lhs => rw [← List.take_append_drop p2 s, heq]
  simp [List.append_assoc]

theorem SpKw_extend {w t a b : List Char} (h : SpKw w t) :
    SpKw w (a ++ t ++ b) := by
  rcases h with ⟨u, v, rfl⟩
  exact ⟨a ++ u, v ++ b, by simp [List.append_assoc]⟩

theorem SpSize_extend {t a b : List Char} (h : SpSize t) :
    SpSize (a ++ t ++ b) := by
  rcases h with ⟨u, d, sp, av, v, rfl, hd, hdig, hsp, ha⟩
  exact ⟨a ++ u, d, sp, av, v ++ b, by simp [List.append_assoc], hd, hdig, hsp, ha⟩

theorem SpKw_pyStrip {w s : List Char} (h : SpKw w (pyStrip s)) : SpKw w s := by
  rcases pyStrip_decomposition s with ⟨a, b, hs, _, _⟩
  rw [hs]
  exact SpKw_extend h

theorem SpSize_pyStrip {s : List Char} (h : SpSize (pyStrip s)) : SpSize s := by
  rcases pyStrip_decomposition s with ⟨a, b, hs, _, _⟩
  rw [hs]
  exact SpSize_extend h

/-- Peeling one collapsed space: a space in the collapse output corresponds
to a whitespace run in the input. -/
theorem collapse_space_decompose {z u t : List Char} (hz : LowTame z)
    (h : pySub P_wsRun [' '] z = u ++ ' ' :: t) :
    ∃ u2 t2, z = u2 ++ ' ' :: t2 ∧ pySub P_wsRun [' '] t2 = t ∧ LowTame t2 := by
  generalize hn : z.length = n
  induction n using Nat.strong_induction_on generalizing z u t with
  | _ n ih =>
      cases z with
      | nil =>
          rw [show pySub P_wsRun [' '] [] = [] from rfl] at h
          exact absurd h (by simp)
      | cons c r =>
          subst hn
          by_cases hc : isSpace c = true
          · rw [collapse_cons_space hc] at h
            set cl := countLeading isSpace r with hcl
            have hr2sub : ∀ d ∈ r.drop cl, d ∈ c :: r :=
              fun d hd => List.mem_cons_of_mem c (List.drop_subset cl r hd)
            have hltr2 : LowTame (r.drop cl) := hz.mono hr2sub
            cases u with
            | nil =>
                simp only [List.nil_append] at h ⊢
                injection h with _ h2
                have hB : ∀ d ∈ c :: r.take cl, d = ' ' := by
                  intro d hd
                  rcases List.mem_cons.mp hd with rfl | hd2
                  · exact lt_space_eq (hz _ (List.mem_cons_self _ r)) hc
                  · exact lt_space_eq
                      (hz d (List.mem_cons_of_mem c (List.take_subset cl r hd2)))
                      (all_take_countLeading isSpace r d (hcl ▸ hd2))
                rcases block_last_space (by simp) hB with ⟨B2, hB2⟩
                refine ⟨B2, r.drop cl, ?_, h2, hltr2⟩
                have hsplit : c :: r = (c :: r.take cl) ++ r.drop cl := by
                  rw [List.cons_append, List.take_append_drop]
                rw [hsplit, hB2]
                simp
            | cons u0 u1 =>
                injection h with h1 h2
                rcases ih (r.drop cl).length
                    (by simp [List.length_drop]; omega) hltr2 h2 rfl with
                  ⟨u2, t2, hz2, hcol, hlt2⟩
                refine ⟨c :: r.take cl ++ u2, t2, ?_, hcol, hlt2⟩
                have hsplit : c :: r = (c :: r.take cl) ++ r.drop cl := by
                  rw [List.cons_append, List.take_append_drop]
                rw [hsplit, hz2]
                simp [List.append_assoc]
          · have hc2 : isSpace c = false := by simpa using hc
            rw [collapse_cons_nonspace hc2] at h
            have hltr : LowTame r := fun d hd => hz d (List.mem_cons_of_mem c hd)
            cases u with
            | nil =>
                simp only [List.nil_append] at h
                injection h with h1 _
                rw [h1] at hc2
                exact absurd hc2 (by decide)
            | cons u0 u1 =>
                injection h with h1 h2
                rcases ih r.length (by simp) hltr h2 rfl with ⟨u2, t2, hz2, hcol, hlt2⟩
                refine ⟨c :: u2, t2, ?_, hcol, hlt2⟩
                rw [hz2, h1]
                rfl

/-- A run of non-whitespace characters survives collapsing verbatim. -/
theorem collapse_word_decompose {w : List Char}
    (hw : ∀ c ∈ w, isSpace c = false) :
    ∀ {z t : List Char}, pySub P_wsRun [' '] z = w ++ t →
      ∃ t2, z = w ++ t2 ∧ pySub P_wsRun [' '] t2 = t := by
  induction w with
  | nil => exact fun h => ⟨_, rfl, h⟩
  | cons a w2 ih =>
      intro z t h
      cases z with
      | nil =>
          rw [show pySub P_wsRun [' '] [] = [] from rfl] at h
          exact absurd h (by simp)
      | cons c r =>
          by_cases hc : isSpace c = true
          · rw [collapse_cons_space hc] at h
            injection h with h1 _
            have ha2 : a = ' ' := h1.symm
            have hna := hw a (List.mem_cons_self a w2)
            rw [ha2] at hna
            exact absurd hna (by decide)
          · have hc2 : isSpace c = false := by simpa using hc
            rw [collapse_cons_nonspace hc2] at h
            injection h with h1 h2
            rcases ih (fun c hc => hw c (List.mem_cons_of_mem a hc)) h2 with
              ⟨t2, hz2, hcol⟩
            exact ⟨t2, by rw [hz2, h1, List.cons_append], hcol⟩

/-- Peeling a run of spaces in the collapse output before a word. -/
theorem collapse_spaces_peel {sp : List Char} (hsp : ∀ c ∈ sp, c = ' ') :
    ∀ {z w t : List Char}, LowTame z → (∀ c ∈ w, isSpace c = false) →
      pySub P_wsRun [' '] z = sp ++ (w ++ t) →
      ∃ spz t2, z = spz ++ (w ++ t2) ∧ (∀ c ∈ spz, c = ' ') := by
  induction sp with
  | nil =>
      intro z w t _ hw h
      rcases collapse_word_decompose hw h with ⟨t2, hz2, _⟩
      exact ⟨[], t2, by simpa using hz2, by simp⟩
  | cons s0 sp2 ih =>
      intro z w t hz hw h
      have hs0 : s0 = ' ' := hsp s0 (List.mem_cons_self s0 sp2)
      cases z with
      | nil =>
          rw [show pySub P_wsRun [' '] [] = [] from rfl] at h
          exact absurd h (by simp)
      | cons c r =>
          by_cases hc : isSpace c = true
          · rw [collapse_cons_space hc] at h
            set cl := countLeading isSpace r with hcl
            injection h with _ h2
            have hltr2 : LowTame (r.drop cl) :=
              hz.mono (fun d hd =>
                List.mem_cons_of_mem c (List.drop_subset cl r hd))
            rcases ih (fun c hc => hsp c (List.mem_cons_of_mem s0 hc)) hltr2 hw h2
              with ⟨spz2, t2, hz2, hspz2⟩
            refine ⟨c :: r.take cl ++ spz2, t2, ?_, ?_⟩
            · have hsplit : c :: r = (c :: r.take cl) ++ r.drop cl := by
                rw [List.cons_append, List.take_append_drop]
              rw [hsplit, hz2]
              simp [List.append_assoc]
            · intro d hd
              rcases List.mem_cons.mp hd with rfl | hd2
              · exact lt_space_eq (hz d (List.mem_cons_self d r)) hc
              · rcases List.mem_append.mp hd2 with hd3 | hd3
                · exact lt_space_eq
                    (hz d (List.mem_cons_of_mem c (List.take_subset cl r hd3)))
                    (all_take_countLeading isSpace r d (hcl ▸ hd3))
                · exact hspz2 d hd3
          · have hc2 : isSpace c = false := by simpa using hc
            rw [collapse_cons_nonspace hc2] at h
            injection h with h1 _
            rw [h1] at hc2
            rw [hs0] at hc2
            exact absurd hc2 (by decide)

/-! ### Substitution takes the leftmost match and leaves no occurrence -/

theorem pySub_structure {pat : List RItem} {s : List Char} (hlt : LowTame s)
    (hfull : ∀ t r, LowTame t → matchLen pat t = some r → r = t.length)
    (hnil : matchLen pat [] = none) :
    (pySub pat [] s = s ∧ ∀ i, matchLen pat (s.drop i) = none) ∨
    (∃ p2, pySub pat [] s = s.take p2 ∧
      ∀ i < p2, matchLen pat (s.drop i) = none) := by
  generalize hn : s.length = n
  induction n using Nat.strong_induction_on generalizing s with
  | _ n ih =>
      cases s with
      | nil =>
          left
          constructor
          · simp [pySub, pySubAux, hnil]
          · intro i
            simpa using hnil
      | cons c rest =>
          subst hn
          have hltr : LowTame rest := fun d hd => hlt d (List.mem_cons_of_mem c hd)
          cases hm : matchLen pat (c :: rest) with
          | some k =>
              have hk := hfull (c :: rest) k hlt hm
              right
              refine ⟨0, ?_, fun i hi => absurd hi (Nat.not_lt_zero i)⟩
              have hk2 : k = rest.length + 1 := by simpa using hk
              subst hk2
              rw [pySub_cons_succ hm, List.drop_length]
              simp [pySub, pySubAux, hnil]
          | none =>
              rcases ih rest.length (by simp) hltr rfl with
                ⟨heq, hnone⟩ | ⟨p2, heq, hmin⟩
              · left
                constructor
                · rw [pySub_cons_none hm, heq]
                · intro i
                  cases i with
                  | zero => simpa using hm
                  | succ i2 =>
                      rw [List.drop_succ_cons]
                      exact hnone i2
              · right
                refine ⟨p2 + 1, ?_, ?_⟩
                · rw [pySub_cons_none hm, heq, List.take_succ_cons]
                · intro i hi
                  cases i with
                  | zero => simpa using hm
                  | succ i2 =>
                      rw [List.drop_succ_cons]
                      exact hmin i2 (by omega)

theorem LowTame_pySub {pat : List RItem} {s : List Char} (hlt : LowTame s) :
    LowTame (pySub pat [] s) := fun c hc =>
  (pySub_subset pat [] s c hc).elim
    (fun h => absurd h (List.not_mem_nil c)) (hlt c)

theorem LowTame_collapse {s : List Char} (hlt : LowTame s) :
    LowTame (pySub P_wsRun [' '] s) := by
  intro c hc
  rcases pySub_subset P_wsRun [' '] s c hc with h | h
  · rcases List.mem_singleton.mp h with rfl
    exact lowTame_space
  · exact hlt c h

/-- The punctuation pattern never fires inside a lower-tame string. -/
theorem punct_id {s : List Char} (hlt : LowTame s) :
    pySub P_punct [] s = s := by
  apply pySub_id_of_no_match
  intro i
  cases hd : s.drop i with
  | nil => rfl
  | cons c u =>
      have hc : lowTame c = true := hlt c (List.drop_subset i s (by
        rw [hd]; exact List.mem_cons_self c u))
      rw [show P_punct = [RItem.cls (fun c => !(isWordChar c || isSpace c)) .one]
        from rfl]
      rw [matchLen_clsOne_cons, if_neg]
      rw [lt_punct hc]
      simp

/-- After its own substitution pass, a keyword pattern has no occurrence
left. -/
theorem pySub_kw_no_SpKw {w s : List Char} (hlt : LowTame s) (hw : KwOk w) :
    ¬ SpKw w (pySub (kwPattern w) [] s) := by
  rcases pySub_structure hlt matchLen_kw_full matchLen_kw_nil with
    ⟨heq, hnone⟩ | ⟨p2, heq, hmin⟩
  · rw [heq]
    rintro ⟨u, v, hdecomp⟩
    exact SpKw_position hw hdecomp (hnone u.length)
  · rw [heq]
    rintro ⟨u, v, hdecomp⟩
    have hs : s = u ++ ' ' :: (w ++ (v ++ s.drop p2)) := by
      conv_lhs => rw [← List.take_append_drop p2 s, hdecomp]
      simp [List.append_assoc]
    have hlen : u.length < p2 := by
      have h2 := congrArg List.length hdecomp
      simp only [List.length_take, List.length_append, List.length_cons] at h2
      have h3 : min p2 s.length ≤ p2 := min_le_left _ _
      omega
    exact SpKw_position hw hs (hmin u.length hlen)

/-- After its substitution pass, the size pattern has no occurrence left. -/
theorem pySub_size_no_SpSize {s : List Char} (hlt : LowTame s) :
    ¬ SpSize (pySub P_size [] s) := by
  rcases pySub_structure hlt matchLen_size_full matchLen_size_nil with
    ⟨heq, hnone⟩ | ⟨p2, heq, hmin⟩
  · rw [heq]
    rintro ⟨u, d, sp, a, v, hdecomp, hd, hdig, hsp, ha⟩
    exact SpSize_position hdecomp hd hdig hsp ha (hnone u.length)
  · rw [heq]
    rintro ⟨u, d, sp, a, v, hdecomp, hd, hdig, hsp, ha⟩
    have hs : s = u ++ ' ' :: (d ++ (sp ++ (a ++ (v ++ s.drop p2)))) := by
      conv_lhs => rw [← List.take_append_drop p2 s, hdecomp]
      simp [List.append_assoc]
    have hlen : u.length < p2 := by
      have h2 := congrArg List.length hdecomp
      simp only [List.length_take, List.length_append, List.length_cons] at h2
      have h3 : min p2 s.length ≤ p2 := min_le_left _ _
      omega
    exact SpSize_position hs hd hdig hsp ha (hmin u.length hlen)

/-- The shapes of the thirteen variant patterns. -/
theorem variantPatterns_shape : ∀ p ∈ variantPatterns,
    p = P_dash ∨ p = P_size ∨ ∃ w2, KwOk w2 ∧ p = kwPattern w2 := by
  intro p hp
  simp only [variantPatterns, List.mem_cons, List.not_mem_nil, or_false] at hp
  rcases hp with rfl | rfl | rfl | rfl | rfl | rfl | rfl | rfl | rfl | rfl |
    rfl | rfl | rfl
  · exact Or.inl rfl
  · exact Or.inr (Or.inr ⟨_, ⟨by decide, by decide⟩, rfl⟩)
  · exact Or.inr (Or.inr ⟨_, ⟨by decide, by decide⟩, rfl⟩)
  · exact Or.inr (Or.inr ⟨_, ⟨by decide, by decide⟩, rfl⟩)
  · exact Or.inr (Or.inr ⟨_, ⟨by decide, by decide⟩, rfl⟩)
  · exact Or.inr (Or.inr ⟨_, ⟨by decide, by decide⟩, rfl⟩)
  · exact Or.inr (Or.inr ⟨_, ⟨by decide, by decide⟩, rfl⟩)
  · exact Or.inr (Or.inr ⟨_, ⟨by decide, by decide⟩, rfl⟩)
  · exact Or.inr (Or.inr ⟨_, ⟨by decide, by decide⟩, rfl⟩)
  · exact Or.inr (Or.inl rfl)
  · exact Or.inr (Or.inr ⟨_, ⟨by decide, by decide⟩, rfl⟩)
  · exact Or.inr (Or.inr ⟨_, ⟨by decide, by decide⟩, rfl⟩)
  · exact Or.inr (Or.inr ⟨_, ⟨by decide, by decide⟩, rfl⟩)

/-- One substitution step of any variant pattern preserves a keyword's
absence. -/
theorem no_SpKw_step {w : List Char} {p : List RItem} {s : List Char}
    (hlt : LowTame s)
    (hp : p = P_dash ∨ p = P_size ∨ ∃ w2, KwOk w2 ∧ p = kwPattern w2)
    (h : ¬ SpKw w s) : ¬ SpKw w (pySub p [] s) := by
  rcases hp with rfl | rfl | ⟨w2, _, rfl⟩
  · rw [pySub_id_of_no_match
      (fun i => matchLen_dash_none (hlt.mono (List.drop_subset i s)))]
    exact h
  · rcases pySub_structure hlt matchLen_size_full matchLen_size_nil with
      ⟨heq, _⟩ | ⟨p2, heq, _⟩
    · rw [heq]; exact h
    · rw [heq]
      intro hsp
      exact h (SpKw_of_take hsp)
  · rcases pySub_structure hlt matchLen_kw_full matchLen_kw_nil with
      ⟨heq, _⟩ | ⟨p2, heq, _⟩
    · rw [heq]; exact h
    · rw [heq]
      intro hsp
      exact h (SpKw_of_take hsp)

/-- One substitution step of any variant pattern preserves the size
pattern's absence. -/
theorem no_SpSize_step {p : List RItem} {s : List Char} (hlt : LowTame s)
    (hp : p = P_dash ∨ p = P_size ∨ ∃ w2, KwOk w2 ∧ p = kwPattern w2)
    (h : ¬ SpSize s) : ¬ SpSize (pySub p [] s) := by
  rcases hp with rfl | rfl | ⟨w2, _, rfl⟩
  · rw [pySub_id_of_no_match
      (fun i => matchLen_dash_none (hlt.mono (List.drop_subset i s)))]
    exact h
  · rcases pySub_structure hlt matchLen_size_full matchLen_size_nil with
      ⟨heq, _⟩ | ⟨p2, heq, _⟩
    · rw [heq]; exact h
    · rw [heq]
      intro hsp
      exact h (SpSize_of_take hsp)
  · rcases pySub_structure hlt matchLen_kw_full matchLen_kw_nil with
      ⟨heq, _⟩ | ⟨p2, heq, _⟩
    · rw [heq]; exact h
    · rw [heq]
      intro hsp
      exact h (SpSize_of_take hsp)

theorem LowTame_fold : ∀ (pats : List (List RItem)) (s : List Char),
    LowTame s →
    LowTame (pats.foldl (fun acc pat => pySub pat [] acc) s) := by
  intro pats
  induction pats with
  | nil => exact fun s h => h
  | cons p rest ih =>
      intro s hlt
      exact ih (pySub p [] s) (LowTame_pySub hlt)

theorem no_SpKw_fold {w : List Char} :
    ∀ (pats : List (List RItem)) (s : List Char), LowTame s →
    (∀ p ∈ pats, p = P_dash ∨ p = P_size ∨ ∃ w2, KwOk w2 ∧ p = kwPattern w2) →
    ¬ SpKw w s →
    ¬ SpKw w (pats.foldl (fun acc pat => pySub pat [] acc) s) := by
  intro pats
  induction pats with
  | nil => exact fun s _ _ h => h
  | cons p rest ih =>
      intro s hlt hshape h
      exact ih (pySub p [] s) (LowTame_pySub hlt)
        (fun q hq => hshape q (List.mem_cons_of_mem p hq))
        (no_SpKw_step hlt (hshape p (List.mem_cons_self p rest)) h)

theorem no_SpSize_fold :
    ∀ (pats : List (List RItem)) (s : List Char), LowTame s →
    (∀ p ∈ pats, p = P_dash ∨ p = P_size ∨ ∃ w2, KwOk w2 ∧ p = kwPattern w2) →
    ¬ SpSize s →
    ¬ SpSize (pats.foldl (fun acc pat => pySub pat [] acc) s) := by
  intro pats
  induction pats with
  | nil => exact fun s _ _ h => h
  | cons p rest ih =>
      intro s hlt hshape h
      exact ih (pySub p [] s) (LowTame_pySub hlt)
        (fun q hq => hshape q (List.mem_cons_of_mem p hq))
        (no_SpSize_step hlt (hshape p (List.mem_cons_self p rest)) h)

/-- After the whole first pass, no keyword of the list and no size token
has an occurrence left. -/
theorem fold_establishes :
    ∀ (pats : List (List RItem)) (s : List Char), LowTame s →
    (∀ p ∈ pats, p = P_dash ∨ p = P_size ∨ ∃ w2, KwOk w2 ∧ p = kwPattern w2) →
    (∀ w, KwOk w → kwPattern w ∈ pats →
      ¬ SpKw w (pats.foldl (fun acc pat => pySub pat [] acc) s)) ∧
    (P_size ∈ pats →
      ¬ SpSize (pats.foldl (fun acc pat => pySub pat [] acc) s)) := by
  intro pats
  induction pats with
  | nil =>
      intro s _ _
      exact ⟨fun w _ hw => absurd hw (List.not_mem_nil _),
        fun hw => absurd hw (List.not_mem_nil _)⟩
  | cons p rest ih =>
      intro s hlt hshape
      have hlt2 : LowTame (pySub p [] s) := LowTame_pySub hlt
      have hshape2 : ∀ q ∈ rest, q = P_dash ∨ q = P_size ∨
          ∃ w2, KwOk w2 ∧ q = kwPattern w2 :=
        fun q hq => hshape q (List.mem_cons_of_mem p hq)
      constructor
      · intro w hwOk hwmem
        rcases List.mem_cons.mp hwmem with heq | hmem
        · subst heq
          rw [List.foldl_cons]
          exact no_SpKw_fold rest (pySub (kwPattern w) [] s) hlt2 hshape2
            (pySub_kw_no_SpKw hlt hwOk)
        · exact (ih (pySub p [] s) hlt2 hshape2).1 w hwOk hmem
      · intro hmem
        rcases List.mem_cons.mp hmem with heq | hmem2
        · subst heq
          rw [List.foldl_cons]
          exact no_SpSize_fold rest (pySub P_size [] s) hlt2 hshape2
            (pySub_size_no_SpSize hlt)
        · exact (ih (pySub p [] s) hlt2 hshape2).2 hmem2

/-! ### Lifting occurrences backwards through collapse and strip -/

theorem lt_digit_not_space : ∀ c ∈ lowTameChars,
    isDigit c = true → isSpace c = false := by decide

/-- A keyword occurrence in the whitespace-collapsed string comes from an
occurrence in the original string. -/
theorem SpKw_collapse {w z : List Char} (hz : LowTame z) (hw : KwOk w)
    (h : SpKw w (pySub P_wsRun [' '] z)) : SpKw w z := by
  rcases h with ⟨u, v, heq⟩
  rcases collapse_space_decompose hz heq with ⟨u2, t2, hz2, hcol, _⟩
  rcases collapse_word_decompose (fun c hc => (hw.2 c hc).2) hcol with
    ⟨t3, ht2, _⟩
  exact ⟨u2, t3, by rw [hz2, ht2]⟩

/-- A size occurrence in the whitespace-collapsed string comes from an
occurrence in the original string. -/
theorem SpSize_collapse {z : List Char} (hz : LowTame z)
    (h : SpSize (pySub P_wsRun [' '] z)) : SpSize z := by
  rcases h with ⟨u, d, sp, a, v, heq, hd, hdig, hsp, ha⟩
  rcases collapse_space_decompose hz heq with ⟨u2, t2, hz2, hcol, hlt2⟩
  have hltc : LowTame (pySub P_wsRun [' '] t2) := LowTame_collapse hlt2
  have hdns : ∀ c ∈ d, isSpace c = false := by
    intro c hc
    have hcm : c ∈ pySub P_wsRun [' '] t2 := by
      rw [hcol]
      exact List.mem_append_left _ hc
    exact lt_digit_not_space c (lowTame_mem.mp (hltc c hcm)) (hdig c hc)
  rcases collapse_word_decompose hdns hcol with ⟨t3, ht2, hcol3⟩
  have hans : ∀ c ∈ a, isSpace c = false :=
    fun c hc => ((sizeAlts_facts a ha).2 c hc).2
  have hlt3 : LowTame t3 := hlt2.mono (fun c hc => by
    rw [ht2]
    exact List.mem_append_right d hc)
  rcases collapse_spaces_peel hsp hlt3 hans hcol3 with ⟨spz, t4, ht3, hspz⟩
  refine ⟨u2, d, spz, a, t4, ?_, hd, hdig, hspz, ha⟩
  rw [hz2, ht2, ht3]

/-- Stripping preserves collapsedness. -/
theorem Collapsed_pyStrip {s : List Char} (h : Collapsed s) :
    Collapsed (pyStrip s) := by
  rcases pyStrip_decomposition s with ⟨a, b, hs, _, _⟩
  rw [hs, List.append_assoc] at h
  exact (Collapsed.of_append_left h).of_append_right

/-- The whole first pass is the identity when no pattern has an
occurrence. -/
theorem fold_id_of_no_occ :
    ∀ (pats : List (List RItem)) (s : List Char), LowTame s →
    (∀ p ∈ pats, p = P_dash ∨ p = P_size ∨ ∃ w2, KwOk w2 ∧ p = kwPattern w2) →
    (∀ w, KwOk w → kwPattern w ∈ pats → ¬ SpKw w s) →
    (P_size ∈ pats → ¬ SpSize s) →
    pats.foldl (fun acc pat => pySub pat [] acc) s = s := by
  intro pats
  induction pats with
  | nil => exact fun s _ _ _ _ => rfl
  | cons p rest ih =>
      intro s hlt hshape hkw hsize
      have hstep : pySub p [] s = s := by
        rcases hshape p (List.mem_cons_self p rest) with rfl | rfl | ⟨w2, hw2, rfl⟩
        · exact pySub_id_of_no_match
            (fun i => matchLen_dash_none (hlt.mono (List.drop_subset i s)))
        · apply pySub_id_of_no_match
          intro i
          by_contra hne
          exact hsize (List.mem_cons_self _ rest)
            (matchLen_size_imp_SpSize hlt hne)
        · apply pySub_id_of_no_match
          intro i
          by_contra hne
          exact hkw w2 hw2 (List.mem_cons_self _ rest)
            (matchLen_kw_imp_SpKw hlt hne)
      rw [List.foldl_cons, hstep]
      exact ih s hlt (fun q hq => hshape q (List.mem_cons_of_mem p hq))
        (fun w hwOk hwm => hkw w hwOk (List.mem_cons_of_mem p hwm))
        (fun hm => hsize (List.mem_cons_of_mem p hm))

/-! ### Splitting a produced key at the colon -/

theorem takeWhile_colon_append {xs ys : List Char}
    (hxs : ∀ c ∈ xs, c ≠ ':') :
    (xs ++ ':' :: ys).takeWhile (fun c => !(c == ':')) = xs := by
  induction xs with
  | nil => simp [List.takeWhile_cons]
  | cons x xs2 ih =>
      rw [List.cons_append, List.takeWhile_cons,
        if_pos (by simp [hxs x (List.mem_cons_self x xs2)])]
      rw [ih (fun c hc => hxs c (List.mem_cons_of_mem x hc))]

theorem dropWhile_colon_append {xs ys : List Char}
    (hxs : ∀ c ∈ xs, c ≠ ':') :
    (xs ++ ':' :: ys).dropWhile (fun c => !(c == ':')) = ':' :: ys := by
  induction xs with
  | nil => simp [List.dropWhile_cons]
  | cons x xs2 ih =>
      rw [List.cons_append, List.dropWhile_cons,
        if_pos (by simp [hxs x (List.mem_cons_self x xs2)])]
      exact ih (fun c hc => hxs c (List.mem_cons_of_mem x hc))

theorem brandSegment_append {xs ys : List Char} (hxs : ∀ c ∈ xs, c ≠ ':') :
    brandSegment (xs ++ ':' :: ys) = xs :=
  takeWhile_colon_append hxs

theorem nameSegment_append {xs ys : List Char} (hxs : ∀ c ∈ xs, c ≠ ':') :
    nameSegment (xs ++ ':' :: ys) = ys := by
  unfold nameSegment
  rw [dropWhile_colon_append hxs]
  rfl

/-! ### Idempotence of the normalizer on word-and-space inputs -/

theorem normalize_cache_key_eq (b n : List Char) :
    normalize_cache_key b n
      = pyStrip (pySub P_wsRun [' ']
          (pySub P_punct [] (pyStrip (lowerStr b))))
        ++ ':' :: pyStrip (pySub P_wsRun [' ']
          (pySub P_punct []
            (variantPatterns.foldl (fun s pat => pySub pat [] s)
              (pyStrip (lowerStr n))))) := rfl

set_option maxHeartbeats 1000000

theorem lowerStr_eq (s : List Char) : lowerStr s = s.map pyLower := rfl

attribute [irreducible] pySub pyStrip lowerStr normalize_cache_key

/-- Reprocessing the brand half of a produced key gives it back. -/
theorem normalize_half_id {x : List Char} (hlt : LowTame x)
    (hstrip : pyStrip x = x) (hcol : Collapsed x) :
    pyStrip (pySub P_wsRun [' ']
      (pySub P_punct [] (pyStrip (lowerStr x)))) = x := by
  have hlow : lowerStr x = x := by rw [lowerStr_eq]; exact map_pyLower_id hlt
  rw [hlow, hstrip, punct_id hlt, collapse_eq_self_of_collapsed hcol, hstrip]

/-- Reprocessing the name half of a produced key gives it back, provided
the variant pass is already exhausted on it. -/
theorem normalize_name_half_id {x : List Char} (hlt : LowTame x)
    (hstrip : pyStrip x = x) (hcol : Collapsed x)
    (hfold : variantPatterns.foldl (fun s pat => pySub pat [] s) x = x) :
    pyStrip (pySub P_wsRun [' ']
      (pySub P_punct []
        (variantPatterns.foldl (fun s pat => pySub pat [] s)
          (pyStrip (lowerStr x))))) = x := by
  have hlow : lowerStr x = x := by rw [lowerStr_eq]; exact map_pyLower_id hlt
  rw [hlow, hstrip, hfold, punct_id hlt,
    collapse_eq_self_of_collapsed hcol, hstrip]

/-- C3, amended: on brand and product-name strings made only of word
characters (ASCII letters, digits, underscore) and spaces — the regime in
which no punctuation stripping or whitespace collapsing can expose a fresh
variant-pattern match — `normalize_cache_key` is idempotent: applying it
again to the brand and name segments of the produced key reproduces the
key.  (Unrestricted idempotence is refuted by
`c3_counterexample_not_idempotent`.) -/
theorem c3_normalize_idempotent_on_word_space_inputs (b n : List Char)
    (hb : ∀ c ∈ b, tameChar c = true) (hn : ∀ c ∈ n, tameChar c = true) :
    normalize_cache_key (brandSegment (normalize_cache_key b n))
        (nameSegment (normalize_cache_key b n))
      = normalize_cache_key b n := by
  have hltb1 : LowTame (pyStrip (lowerStr b)) :=
    LowTame_pyStrip (LowTame_lowerStr hb)
  have hltn1 : LowTame (pyStrip (lowerStr n)) :=
    LowTame_pyStrip (LowTame_lowerStr hn)
  have hltn2 : LowTame (variantPatterns.foldl (fun s pat => pySub pat [] s)
      (pyStrip (lowerStr n))) := LowTame_fold _ _ hltn1
  rw [normalize_cache_key_eq b n, punct_id hltb1, punct_id hltn2]
  set b3 := pyStrip (pySub P_wsRun [' '] (pyStrip (lowerStr b))) with hb3def
  set n4 := pyStrip (pySub P_wsRun [' ']
      (variantPatterns.foldl (fun s pat => pySub pat [] s)
        (pyStrip (lowerStr n)))) with hn4def
  have hltb3 : LowTame b3 := by
    rw [hb3def]
    exact LowTame_pyStrip (LowTame_collapse hltb1)
  have hltn4 : LowTame n4 := by
    rw [hn4def]
    exact LowTame_pyStrip (LowTame_collapse hltn2)
  have hstripb3 : pyStrip b3 = b3 := by
    rw [hb3def]
    exact pyStrip_idem _
  have hstripn4 : pyStrip n4 = n4 := by
    rw [hn4def]
    exact pyStrip_idem _
  have hcolb3 : Collapsed b3 := by
    rw [hb3def]
    exact Collapsed_pyStrip (collapse_collapsed _)
  have hcoln4 : Collapsed n4 := by
    rw [hn4def]
    exact Collapsed_pyStrip (collapse_collapsed _)
  have hkw4 : ∀ w, KwOk w → kwPattern w ∈ variantPatterns → ¬ SpKw w n4 := by
    intro w hwOk hwm hsp
    rw [hn4def] at hsp
    exact (fold_establishes variantPatterns (pyStrip (lowerStr n)) hltn1
        variantPatterns_shape).1 w hwOk hwm
      (SpKw_collapse hltn2 hwOk (SpKw_pyStrip hsp))
  have hsize4 : P_size ∈ variantPatterns → ¬ SpSize n4 := by
    intro hm hsp
    rw [hn4def] at hsp
    exact (fold_establishes variantPatterns (pyStrip (lowerStr n)) hltn1
        variantPatterns_shape).2 hm
      (SpSize_collapse hltn2 (SpSize_pyStrip hsp))
  have hfold4 : variantPatterns.foldl (fun s pat => pySub pat [] s) n4 = n4 :=
    fold_id_of_no_occ variantPatterns n4 hltn4 variantPatterns_shape hkw4 hsize4
  rw [brandSegment_append (fun c hc => lt_ne_colon (hltb3 c hc)),
    nameSegment_append (fun c hc => lt_ne_colon (hltb3 c hc))]
  rw [normalize_cache_key_eq b3 n4,
    normalize_half_id hltb3 hstripb3 hcolb3,
    normalize_name_half_id hltn4 hstripn4 hcoln4 hfold4]

/-- Witness: the amended idempotence theorem applied at the concrete input
`("Clorox", "Disinfecting Wipes Lemon Fresh")`, whose characters are all
word characters and spaces. -/
theorem c3_normalize_idempotent_witness :
    (∀ c ∈ "Clorox".data, tameChar c = true) ∧
    (∀ c ∈ "Disinfecting Wipes Lemon Fresh".data, tameChar c = true) ∧
    normalize_cache_key
        (brandSegment (normalize_cache_key "Clorox".data
          "Disinfecting Wipes Lemon Fresh".data))
        (nameSegment (normalize_cache_key "Clorox".data
          "Disinfecting Wipes Lemon Fresh".data))
      = normalize_cache_key "Clorox".data
          "Disinfecting Wipes Lemon Fresh".data :=
  ⟨by decide, by decide,
    c3_normalize_idempotent_on_word_space_inputs "Clorox".data
      "Disinfecting Wipes Lemon Fresh".data (by decide) (by decide)⟩
